import Mathlib

/-!
Verification of the `bari` streaming JSON event parser (Go, `bari.go`).

The Go program is shallowly embedded: the `bufio.Reader` cursor becomes a
zipper over a list of bytes (`past`/`fut`), the event channel becomes an
explicitly returned list of events, machine integers become `Int`/`Nat`,
and Go `float64` values produced by `strconv.ParseFloat` are modelled as
exact rationals (the claims exercised depend only on the representation
tag and on values that are exactly representable).

The Go functions that loop over the input are written with an explicit
fuel argument; public entry points supply fuel derived from the length of
the remaining input, which is always sufficient because every loop
iteration consumes at least one byte.  The mutually recursive grammar
procedures (`readValue`, `readObject`, `readArray`, and `Parse`'s
top-level loop) take an explicit fuel parameter, since their nesting
depth is not structurally bounded; running out of fuel is modelled as a
parse failure, so every safety theorem below is stated for all fuels.
-/

/-- Bytes of the input stream, as natural numbers below 256. -/
abbrev Byte := Nat

/-- Errors as stored in the Go parser's `err` field: either `io.EOF`
(recorded by `readByte` on exhaustion) or a `ParseError` with message,
line and position. -/
inductive GoError where
  | ioEOF
  | parseError (message : String) (line : Int) (position : Int)
deriving DecidableEq, Repr

/-- `EventType` from `bari.go`. -/
inductive EventType where
  | UnknownEvent
  | ObjectStartEvent
  | ObjectKeyEvent
  | ObjectValueEvent
  | ObjectEndEvent
  | ArrayStartEvent
  | ArrayEndEvent
  | StringEvent
  | NumberEvent
  | BooleanEvent
  | NullEvent
  | EOFEvent
deriving DecidableEq, Repr

/-- The Go `interface\x7b\x7d` payload of an `Event`: `nil`, a string (kept as
its UTF-8 bytes), an `int64`, a `float64` (modelled as an exact rational),
or a `bool`. -/
inductive EValue where
  | none
  | str (bytes : List Byte)
  | int (i : Int)
  | float (q : ℚ)
  | bool (b : Bool)
deriving DecidableEq, Repr

/-- `Event` from `bari.go`. -/
structure Event where
  type : EventType
  value : EValue
  error : Option GoError
deriving DecidableEq, Repr

/-- The parser state: the cursor (consumed bytes in `past`, most recent
first; remaining bytes in `fut`), the `line`/`position` bookkeeping, the
`unreadChangesLine` flag and the recorded error. -/
structure PState where
  past : List Byte
  fut : List Byte
  line : Int
  position : Int
  unreadChangesLine : Bool
  err : Option GoError
deriving DecidableEq, Repr

/-- `NewParser`: line starts at 1, position at 0. -/
def initState (input : List Byte) : PState :=
  { past := [], fut := input, line := 1, position := 0
    unreadChangesLine := false, err := Option.none }

/-- `Parser.serr`: record a `ParseError` at the current coordinates. -/
def serr (msg : String) (s : PState) : PState :=
  { s with err := some (.parseError msg s.line s.position) }

/-- Message of `errUnexpectedEOF`. -/
def unexpectedEOFMsg : String := "unexpected end of file"

/-- Render a byte the way Go's `%c` formats it (as the rune with that
code point). -/
def charStr (b : Byte) : String := String.mk [Char.ofNat b]

/-- `Parser.readByte`: on exhaustion record `io.EOF` and return the
sentinel byte 0; otherwise advance, bump `position`, and on a newline
bump `line`, reset `position` and set `unreadChangesLine`. -/
def readByte (s : PState) : Byte × PState :=
  match s.fut with
  | [] => (0, { s with err := some .ioEOF })
  | b :: rest =>
    if b = 10 then
      (b, { s with past := b :: s.past, fut := rest,
                   line := s.line + 1, position := 0, unreadChangesLine := true })
    else
      (b, { s with past := b :: s.past, fut := rest,
                   position := s.position + 1, unreadChangesLine := false })

/-- `Parser.unreadByte`: decrement `position`; if the last advance
crossed a newline, decrement `line` and set `position` to 0; push the
byte back (`bufio.Reader.UnreadByte` is a no-op when nothing was read). -/
def unreadByte (s : PState) : PState :=
  let s₁ := { s with position := s.position - 1 }
  let s₂ := if s.unreadChangesLine then { s₁ with line := s.line - 1, position := 0 } else s₁
  match s₂.past with
  | [] => s₂
  | b :: p => { s₂ with past := p, fut := b :: s₂.fut }

/-- `isSpace` from `bari.go` (tab, newline, vertical tab, form feed,
carriage return, space, 0x85, 0xA0). -/
def isSpace (b : Byte) : Bool :=
  b = 9 || b = 10 || b = 11 || b = 12 || b = 13 || b = 32 || b = 133 || b = 160

/-- `isDigit` from `bari.go`. -/
def isDigit (b : Byte) : Bool := 48 ≤ b && b ≤ 57

/-- Fueled loop of `Parser.readIgnoreWS`. -/
def igWSF : Nat → PState → Byte × PState
  | 0, s => (0, serr "out of fuel" s)
  | fuel + 1, s =>
    let (r, s') := readByte s
    if r ≠ 0 ∧ isSpace r then igWSF fuel s' else (r, s')

/-- `Parser.readIgnoreWS`: skip whitespace, return the first
non-whitespace byte (or 0 at end of input).  One byte is consumed per
loop iteration, so `fut.length + 1` fuel always suffices. -/
def readIgnoreWS (s : PState) : Byte × PState := igWSF (s.fut.length + 1) s

/-! ### Scalar lexers -/

/-- Fueled byte-collecting loop of `Parser.readString`: read raw bytes
until a double quote. -/
def strLoopF : Nat → PState → List Byte → Bool × PState × List Byte
  | 0, s, acc => (false, serr "out of fuel" s, acc)
  | fuel + 1, s, acc =>
    let (r, s') := readByte s
    if r = 0 then (false, serr unexpectedEOFMsg s', acc)
    else if r = 34 then (true, s', acc)
    else strLoopF fuel s' (acc ++ [r])

/-! ### UTF-8 / UTF-16 helpers (from the Go standard library) -/

/-- `utf8.DecodeRune` on a list of bytes: returns the code point and the
number of bytes consumed; `(0xFFFD, 1)` on malformed input, `(0xFFFD, 0)`
on empty input. -/
def utf8DecodeRune (l : List Byte) : Nat × Nat :=
  match l with
  | [] => (0xFFFD, 0)
  | b0 :: rest =>
    if b0 < 0x80 then (b0, 1)
    else if b0 < 0xC2 then (0xFFFD, 1)
    else if b0 ≤ 0xDF then
      match rest with
      | b1 :: _ =>
        if 0x80 ≤ b1 ∧ b1 ≤ 0xBF then ((b0 - 0xC0) * 64 + (b1 - 0x80), 2)
        else (0xFFFD, 1)
      | [] => (0xFFFD, 1)
    else if b0 ≤ 0xEF then
      let lo := if b0 = 0xE0 then 0xA0 else 0x80
      let hi := if b0 = 0xED then 0x9F else 0xBF
      match rest with
      | b1 :: b2 :: _ =>
        if lo ≤ b1 ∧ b1 ≤ hi ∧ 0x80 ≤ b2 ∧ b2 ≤ 0xBF then
          ((b0 - 0xE0) * 4096 + (b1 - 0x80) * 64 + (b2 - 0x80), 3)
        else (0xFFFD, 1)
      | _ => (0xFFFD, 1)
    else if b0 ≤ 0xF4 then
      let lo := if b0 = 0xF0 then 0x90 else 0x80
      let hi := if b0 = 0xF4 then 0x8F else 0xBF
      match rest with
      | b1 :: b2 :: b3 :: _ =>
        if lo ≤ b1 ∧ b1 ≤ hi ∧ 0x80 ≤ b2 ∧ b2 ≤ 0xBF ∧ 0x80 ≤ b3 ∧ b3 ≤ 0xBF then
          ((b0 - 0xF0) * 262144 + (b1 - 0x80) * 4096 + (b2 - 0x80) * 64 + (b3 - 0x80), 4)
        else (0xFFFD, 1)
      | _ => (0xFFFD, 1)
    else (0xFFFD, 1)

/-- `utf8.EncodeRune`: encode a code point as UTF-8 bytes; invalid code
points (surrogates, out of range) encode the replacement character. -/
def utf8EncodeRune (r : Nat) : List Byte :=
  if r < 0x80 then [r]
  else if r < 0x800 then [0xC0 + r / 64, 0x80 + r % 64]
  else if 0xD800 ≤ r ∧ r ≤ 0xDFFF then [0xEF, 0xBF, 0xBD]
  else if r < 0x10000 then [0xE0 + r / 4096, 0x80 + r / 64 % 64, 0x80 + r % 64]
  else if r ≤ 0x10FFFF then
    [0xF0 + r / 262144, 0x80 + r / 4096 % 64, 0x80 + r / 64 % 64, 0x80 + r % 64]
  else [0xEF, 0xBF, 0xBD]

/-- Value of a hexadecimal digit byte (as accepted by
`strconv.ParseUint` with base 16). -/
def hexVal (b : Byte) : Option Nat :=
  if 48 ≤ b ∧ b ≤ 57 then some (b - 48)
  else if 97 ≤ b ∧ b ≤ 102 then some (b - 87)
  else if 65 ≤ b ∧ b ≤ 70 then some (b - 55)
  else Option.none

/-- `getu4` from `bari.go`: decode a leading backslash-u-XXXX escape,
returning the hex value or -1. -/
def getu4 (l : List Byte) : Int :=
  match l with
  | 92 :: 117 :: h1 :: h2 :: h3 :: h4 :: _ =>
    match hexVal h1, hexVal h2, hexVal h3, hexVal h4 with
    | some a, some b, some c, some d => (((a * 16 + b) * 16 + c) * 16 + d : Nat)
    | _, _, _, _ => -1
  | _ => -1

/-- `utf16.IsSurrogate`. -/
def utf16IsSurrogate (r : Int) : Bool := 0xD800 ≤ r && r < 0xE000

/-- `utf16.DecodeRune`: combine a surrogate pair, or return the
replacement character. -/
def utf16DecodeRune (r1 r2 : Int) : Int :=
  if 0xD800 ≤ r1 ∧ r1 < 0xDC00 ∧ 0xDC00 ≤ r2 ∧ r2 < 0xE000 then
    0x10000 + (r1 - 0xD800) * 1024 + (r2 - 0xDC00)
  else 0xFFFD

/-- Fueled fast-path scan of `decodeToUTF8`: length of the leading run
that needs no rewriting (no backslash, no quote, no control byte, valid
UTF-8). -/
def cleanLenF : Nat → List Byte → Nat
  | 0, _ => 0
  | _ + 1, [] => 0
  | fuel + 1, c :: rest =>
    if c = 92 ∨ c = 34 ∨ c < 32 then 0
    else if c < 0x80 then 1 + cleanLenF fuel rest
    else
      let (rr, size) := utf8DecodeRune (c :: rest)
      if rr = 0xFFFD ∧ size = 1 then 0
      else size + cleanLenF fuel ((c :: rest).drop size)

/-- Every decode step consumes at least one byte. -/
theorem utf8DecodeRune_size_pos (b : Byte) (rest : List Byte) :
    1 ≤ (utf8DecodeRune (b :: rest)).2 := by
  unfold utf8DecodeRune
  repeat' split
  all_goals try simp_all
  all_goals split_ifs <;> simp

/-- Slow path of `decodeToUTF8`: rewrite escapes, reject quotes,
control bytes and malformed escapes, coerce invalid UTF-8 to the
replacement character.  (The Go code writes into a growable byte slice;
the capacity-doubling reallocation has no observable effect and is not
modelled.) -/
def decSlow : List Byte → Option (List Byte)
  | [] => some []
  | c :: rest =>
    if c = 92 then
      match _hrest : rest with
      | [] => Option.none
      | e :: _ =>
        if e = 34 ∨ e = 92 ∨ e = 47 ∨ e = 39 then
          (decSlow ((c :: rest).drop 2)).map (e :: ·)
        else if e = 98 then (decSlow ((c :: rest).drop 2)).map (8 :: ·)
        else if e = 102 then (decSlow ((c :: rest).drop 2)).map (12 :: ·)
        else if e = 110 then (decSlow ((c :: rest).drop 2)).map (10 :: ·)
        else if e = 114 then (decSlow ((c :: rest).drop 2)).map (13 :: ·)
        else if e = 116 then (decSlow ((c :: rest).drop 2)).map (9 :: ·)
        else if e = 117 then
          let rr := getu4 (c :: rest)
          if rr < 0 then Option.none
          else
            if utf16IsSurrogate rr then
              let rr1 := getu4 ((c :: rest).drop 6)
              let dec := utf16DecodeRune rr rr1
              if dec ≠ 0xFFFD then
                (decSlow ((c :: rest).drop 12)).map (utf8EncodeRune dec.toNat ++ ·)
              else
                (decSlow ((c :: rest).drop 6)).map (utf8EncodeRune 0xFFFD ++ ·)
            else (decSlow ((c :: rest).drop 6)).map (utf8EncodeRune rr.toNat ++ ·)
        else Option.none
    else if c = 34 ∨ c < 32 then Option.none
    else if c < 0x80 then (decSlow rest).map (c :: ·)
    else
      (decSlow ((c :: rest).drop (utf8DecodeRune (c :: rest)).2)).map
        (utf8EncodeRune (utf8DecodeRune (c :: rest)).1 ++ ·)
termination_by l => l.length
decreasing_by
  all_goals simp_wf
  all_goals simp_all [List.length_drop]
  all_goals try omega
  all_goals exact utf8DecodeRune_size_pos _ _

/-- `decodeToUTF8` from `bari.go`: fast path returns the input
unchanged when nothing needs rewriting, otherwise the slow path rewrites
the remainder. -/
def decodeToUTF8 (l : List Byte) : Option (List Byte) :=
  let r := cleanLenF (l.length + 1) l
  if r = l.length then some l
  else (decSlow (l.drop r)).map (l.take r ++ ·)

/-! ### Number parsing (`strconv`) -/

/-- Digits value: `some` of the value when the bytes are a non-empty
run of decimal digits. -/
def digitsVal : List Byte → Option Nat
  | [] => Option.none
  | l => l.foldl (fun acc b => do
      let a ← acc
      if isDigit b then some (a * 10 + (b - 48)) else Option.none) (some 0)

/-- Bytes rendered as a string, for `strconv` error messages. -/
def bytesStr (l : List Byte) : String := String.mk (l.map Char.ofNat)

/-- `strconv.ParseInt(s, 10, 64)`: optional sign, non-empty digit run,
`int64` range check. -/
def goParseInt (l : List Byte) : Except String Int :=
  let errSyn : Except String Int :=
    .error ("strconv.ParseInt: parsing \"" ++ bytesStr l ++ "\": invalid syntax")
  let errRange : Except String Int :=
    .error ("strconv.ParseInt: parsing \"" ++ bytesStr l ++ "\": value out of range")
  match l with
  | [] => errSyn
  | c :: rest =>
    let neg : Bool := c = 45
    let digits := if c = 43 ∨ c = 45 then rest else l
    match digitsVal digits with
    | Option.none => errSyn
    | some un =>
      if neg = false ∧ 2 ^ 63 ≤ un then errRange
      else if neg = true ∧ 2 ^ 63 < un then errRange
      else .ok (if neg then -(un : Int) else (un : Int))

/-- Take the longest digit run off the front. -/
def spanDigits (l : List Byte) : List Byte × List Byte :=
  (l.takeWhile isDigit, l.dropWhile isDigit)

/-- Sign handling of `strconv.ParseFloat`. -/
def floatSign (l : List Byte) : Bool × List Byte :=
  match l with
  | 43 :: rest => (false, rest)
  | 45 :: rest => (true, rest)
  | _ => (false, l)

/-- Fractional part: digits after a leading dot, if any. -/
def fracPart (r1 : List Byte) : List Byte × List Byte :=
  match r1 with
  | 46 :: rest => spanDigits rest
  | _ => ([], r1)

/-- Sign of the exponent. -/
def expSign (rest : List Byte) : Int × List Byte :=
  match rest with
  | 43 :: r => (1, r)
  | 45 :: r => (-1, r)
  | _ => (1, rest)

/-- Exponent handling of `strconv.ParseFloat`: nothing, or `e`/`E`, an
optional sign and a non-empty all-digit run. -/
def expPart (m : ℚ) : List Byte → Option ℚ
  | [] => some m
  | e :: rest =>
    if e = 101 ∨ e = 69 then
      match digitsVal (expSign rest).2 with
      | Option.none => Option.none
      | some ev => some (m * (10 : ℚ) ^ ((expSign rest).1 * (ev : Int)))
    else Option.none

/-- The decimal value accepted by `strconv.ParseFloat(s, 64)` restricted
to the decimal syntax (the only one reachable from the lexer's byte
set): optional sign, digits with at most one dot and at least one
mantissa digit, optional exponent.  The value is kept exact as a
rational. -/
def goFloatVal (l : List Byte) : Option ℚ :=
  let neg := (floatSign l).1
  let l1 := (floatSign l).2
  let ip := (spanDigits l1).1
  let r1 := (spanDigits l1).2
  let fp := (fracPart r1).1
  let r2 := (fracPart r1).2
  if ip ++ fp = [] then Option.none
  else
    let m : ℚ := ((digitsVal (ip ++ fp)).getD 0 : ℚ) / (10 : ℚ) ^ fp.length
    expPart (if neg then -m else m) r2

/-- `strconv.ParseFloat(s, 64)`: syntax errors reject, and magnitudes at
or beyond the `float64` overflow-to-infinity threshold report a range
error as Go does (rounding below the threshold is not modelled). -/
def goParseFloat (l : List Byte) : Except String ℚ :=
  match goFloatVal l with
  | Option.none =>
    .error ("strconv.ParseFloat: parsing \"" ++ bytesStr l ++ "\": invalid syntax")
  | some v =>
    if ((2 ^ 1024 - 2 ^ 970 : Nat) : ℚ) ≤ |v| then
      .error ("strconv.ParseFloat: parsing \"" ++ bytesStr l ++ "\": value out of range")
    else .ok v

/-! ### Event constructors and the grammar procedures -/

/-- Result of a grammar procedure: the Go boolean return value, the
updated parser state, and the events sent on the channel (in order). -/
abbrev PResult := Bool × PState × List Event

def evObjStart : Event := ⟨.ObjectStartEvent, .none, Option.none⟩
def evObjKey : Event := ⟨.ObjectKeyEvent, .none, Option.none⟩
def evObjValue : Event := ⟨.ObjectValueEvent, .none, Option.none⟩
def evObjEnd : Event := ⟨.ObjectEndEvent, .none, Option.none⟩
def evArrStart : Event := ⟨.ArrayStartEvent, .none, Option.none⟩
def evArrEnd : Event := ⟨.ArrayEndEvent, .none, Option.none⟩
def evStr (v : List Byte) : Event := ⟨.StringEvent, .str v, Option.none⟩
def evInt (i : Int) : Event := ⟨.NumberEvent, .int i, Option.none⟩
def evFloat (q : ℚ) : Event := ⟨.NumberEvent, .float q, Option.none⟩
def evBool (b : Bool) : Event := ⟨.BooleanEvent, .bool b, Option.none⟩

/-- `Parser.readString`: skip whitespace, expect a double quote, collect
raw bytes up to the closing quote, decode them, and emit a String
event. -/
def readString (s : PState) : PResult :=
  let (r, s₁) := readIgnoreWS s
  if r = 0 then (false, serr unexpectedEOFMsg s₁, [])
  else if r ≠ 34 then (false, serr ("expected \" but got " ++ charStr r) s₁, [])
  else
    match strLoopF (s₁.fut.length + 1) s₁ [] with
    | (false, s₂, _) => (false, s₂, [])
    | (true, s₂, raw) =>
      match decodeToUTF8 raw with
      | Option.none =>
        (false, serr "unable to decode string into a valid UTF-8 string" s₂, [])
      | some decoded => (true, s₂, [evStr decoded])

/-- `Parser.readBoolean`: read exactly 4 bytes; `true` emits the true
event, otherwise a 5th byte equal to `e` emits the false event. -/
def readBoolean (s : PState) : PResult :=
  let (r1, s1) := readByte s
  if r1 = 0 then (false, serr unexpectedEOFMsg s1, [])
  else
    let (r2, s2) := readByte s1
    if r2 = 0 then (false, serr unexpectedEOFMsg s2, [])
    else
      let (r3, s3) := readByte s2
      if r3 = 0 then (false, serr unexpectedEOFMsg s3, [])
      else
        let (r4, s4) := readByte s3
        if r4 = 0 then (false, serr unexpectedEOFMsg s4, [])
        else
          if [r1, r2, r3, r4] = [116, 114, 117, 101] then (true, s4, [evBool true])
          else
            let (r5, s5) := readByte s4
            if r5 = 0 then (false, serr unexpectedEOFMsg s5, [])
            else if r5 ≠ 101 then
              (false, serr ("expected e but got " ++ charStr r5) s5, [])
            else (true, s5, [evBool false])

/-- A byte `.`, `e` or `E` (forces the float representation). -/
def isFloatByte (b : Byte) : Bool := b = 46 || b = 101 || b = 69

/-- A byte the number lexer keeps consuming: digit, sign, dot or
exponent letter. -/
def isNumByte (b : Byte) : Bool := isFloatByte b || b = 43 || b = 45 || isDigit b

/-- Fueled lexeme-collecting loop of `Parser.readNumber`. -/
def numLoopF : Nat → PState → List Byte → Bool → Bool × PState × List Byte × Bool
  | 0, s, acc, isF => (false, serr "out of fuel" s, acc, isF)
  | fuel + 1, s, acc, isF =>
    let (r, s') := readByte s
    if r = 0 then (false, serr unexpectedEOFMsg s', acc, isF)
    else if isFloatByte r then numLoopF fuel s' (acc ++ [r]) true
    else if ¬(isNumByte r) then (true, unreadByte s', acc, isF)
    else numLoopF fuel s' (acc ++ [r]) isF

/-- `Parser.readNumber`: collect the maximal numeric run, then parse it
as `float64` when a `.`, `e` or `E` appeared and as `int64` otherwise. -/
def readNumber (s : PState) : PResult :=
  match numLoopF (s.fut.length + 1) s [] false with
  | (false, s', _, _) => (false, s', [])
  | (true, s', lexeme, isFloat) =>
    if isFloat then
      match goParseFloat lexeme with
      | .error m => (false, serr m s', [])
      | .ok q => (true, s', [evFloat q])
    else
      match goParseInt lexeme with
      | .error m => (false, serr m s', [])
      | .ok i => (true, s', [evInt i])

mutual

/-- `Parser.readValue`: dispatch on the first non-whitespace byte. -/
def readValue : Nat → PState → PResult
  | 0, s => (false, serr "out of fuel" s, [])
  | n + 1, s =>
    let (r, s₁) := readIgnoreWS s
    if r = 0 then (false, serr unexpectedEOFMsg s₁, [])
    else if r = 34 then readString (unreadByte s₁)
    else if r = 39 then
      let (r2, s₂) := readByte s₁
      if r2 = 0 then (false, s₂, [])
      else (true, s₂, [])
    else if r = 102 ∨ r = 116 then readBoolean (unreadByte s₁)
    else if r = 45 ∨ r = 43 ∨ isDigit r then readNumber (unreadByte s₁)
    else if r = 123 then readObject n (unreadByte s₁)
    else if r = 91 then readArray n (unreadByte s₁)
    else (false, serr ("unexpected character " ++ charStr r) s₁, [])

/-- `Parser.readObject`: expect an opening brace, handle the empty
object, otherwise run the member loop. -/
def readObject : Nat → PState → PResult
  | 0, s => (false, serr "out of fuel" s, [])
  | n + 1, s =>
    let (r, s₁) := readIgnoreWS s
    if r = 0 then (false, serr unexpectedEOFMsg s₁, [])
    else if r ≠ 123 then (false, serr ("expected \x7b but got " ++ charStr r) s₁, [])
    else
      let (r₂, s₂) := readIgnoreWS s₁
      if r₂ = 0 then (false, serr unexpectedEOFMsg s₂, [evObjStart])
      else if r₂ = 125 then (true, s₂, [evObjStart, evObjEnd])
      else
        match readObjectLoop n (unreadByte s₂) with
        | (ok, s₃, es) => (ok, s₃, evObjStart :: es)

/-- The member loop of `Parser.readObject`: marker, key string, colon,
marker, value, then comma (continue) or closing brace (emit the end
event). -/
def readObjectLoop : Nat → PState → PResult
  | 0, s => (false, serr "out of fuel" s, [])
  | n + 1, s =>
    match readString s with
    | (false, s₁, es₁) => (false, s₁, evObjKey :: es₁)
    | (true, s₁, es₁) =>
      let (r, s₂) := readIgnoreWS s₁
      if r ≠ 58 then
        (false, serr ("expected : but got " ++ charStr r) s₂, evObjKey :: es₁)
      else
        match readValue n s₂ with
        | (false, s₃, es₂) => (false, s₃, evObjKey :: es₁ ++ evObjValue :: es₂)
        | (true, s₃, es₂) =>
          let (r₂, s₄) := readIgnoreWS s₃
          if r₂ = 0 then
            (false, serr unexpectedEOFMsg s₄, evObjKey :: es₁ ++ evObjValue :: es₂)
          else if r₂ = 125 then
            (true, s₄, evObjKey :: es₁ ++ evObjValue :: es₂ ++ [evObjEnd])
          else if r₂ ≠ 44 then
            (false, serr ("expected , but got " ++ charStr r₂) s₄,
             evObjKey :: es₁ ++ evObjValue :: es₂)
          else
            match readObjectLoop n s₄ with
            | (ok, s₅, es₃) => (ok, s₅, evObjKey :: es₁ ++ evObjValue :: es₂ ++ es₃)

/-- `Parser.readArray`: expect an opening bracket, handle the empty
array, otherwise run the element loop. -/
def readArray : Nat → PState → PResult
  | 0, s => (false, serr "out of fuel" s, [])
  | n + 1, s =>
    let (r, s₁) := readIgnoreWS s
    if r = 0 then (false, serr unexpectedEOFMsg s₁, [])
    else if r ≠ 91 then (false, serr ("expected [ but got " ++ charStr r) s₁, [])
    else
      let (r₂, s₂) := readIgnoreWS s₁
      if r₂ = 0 then (false, serr unexpectedEOFMsg s₂, [evArrStart])
      else if r₂ = 93 then (true, s₂, [evArrStart, evArrEnd])
      else
        match readArrayLoop n (unreadByte s₂) with
        | (ok, s₃, es) => (ok, s₃, evArrStart :: es)

/-- The element loop of `Parser.readArray`. -/
def readArrayLoop : Nat → PState → PResult
  | 0, s => (false, serr "out of fuel" s, [])
  | n + 1, s =>
    match readValue n s with
    | (false, s₁, es₁) => (false, s₁, es₁)
    | (true, s₁, es₁) =>
      let (r, s₂) := readIgnoreWS s₁
      if r = 0 then (false, serr unexpectedEOFMsg s₂, es₁)
      else if r = 93 then (true, s₂, es₁ ++ [evArrEnd])
      else if r ≠ 44 then
        (false, serr ("expected , but got " ++ charStr r) s₂, es₁)
      else
        match readArrayLoop n s₂ with
        | (ok, s₃, es₂) => (ok, s₃, es₁ ++ es₂)

end

/-- The body of one iteration of `Parse`'s top-level loop: dispatch on a
raw byte read (`eof`, opening brace, opening bracket, or an unexpected
character). -/
def parseDoc (fuel : Nat) (s : PState) : PResult :=
  let (r, s₁) := readByte s
  if r = 0 then (false, serr unexpectedEOFMsg s₁, [])
  else if r = 123 then readObject fuel (unreadByte s₁)
  else if r = 91 then readArray fuel (unreadByte s₁)
  else (false, serr ("unexpected character " ++ charStr r) s₁, [])

/-- `Parser.resetState`: between top-level documents the coordinates are
reset to line 1, position 0. -/
def resetState (s : PState) : PState := { s with line := 1, position := 0 }

mutual

/-- The top-level loop of `Parser.Parse`: parse a document, then either
stop (on failure or clean end of input) or push the lookahead byte back,
reset the coordinates and continue. -/
def parseLoop : Nat → PState → PState × List Event
  | 0, s => (serr "out of fuel" s, [])
  | n + 1, s =>
    match parseDoc n s with
    | (false, s₁, es) => (s₁, es)
    | (true, s₁, es) =>
      match parseAfter n s₁ with
      | (s₂, es₂) => (s₂, es ++ es₂)

/-- After a complete top-level document: skip whitespace; end of input
stops the loop cleanly, anything else is pushed back and parsed as the
next document after `resetState`. -/
def parseAfter : Nat → PState → PState × List Event
  | 0, s => (serr "out of fuel" s, [])
  | n + 1, s =>
    let (r, s₁) := readIgnoreWS s
    if r = 0 then (s₁, [])
    else parseLoop n (resetState (unreadByte s₁))

end

/-- `Parser.getError`: `io.EOF` is the clean terminator and is reported
as no error. -/
def getError (s : PState) : Option GoError :=
  match s.err with
  | some .ioEOF => Option.none
  | e => e

/-- `Parser.Parse`: run the top-level loop, then emit the terminal EOF
event only when a non-`io.EOF` error was recorded. -/
def Parse (fuel : Nat) (s : PState) : PState × List Event :=
  match parseLoop fuel s with
  | (s', es) =>
    match getError s' with
    | Option.none => (s', es)
    | some e => (s', es ++ [⟨.EOFEvent, .none, some e⟩])

/-- Events emitted by parsing the given input bytes. -/
def parseEvents (fuel : Nat) (input : List Byte) : List Event :=
  (Parse fuel (initState input)).2

/-! ### Shape of the emitted event stream -/

/-- A body event: one of the nine event kinds the grammar procedures
emit (never `Unknown`, `Null` or `EOF`), always with a `nil` error. -/
def bodyOK (es : List Event) : Prop :=
  ∀ e ∈ es, (e.type ≠ .UnknownEvent ∧ e.type ≠ .NullEvent ∧ e.type ≠ .EOFEvent) ∧
    e.error = Option.none

/-- Which event kind may immediately follow which: the two marker
events constrain their successor, every other kind does not. -/
def nextOK : EventType → EventType → Bool
  | .ObjectKeyEvent, .StringEvent => true
  | .ObjectKeyEvent, .EOFEvent => true
  | .ObjectKeyEvent, _ => false
  | .ObjectValueEvent, .StringEvent => true
  | .ObjectValueEvent, .NumberEvent => true
  | .ObjectValueEvent, .BooleanEvent => true
  | .ObjectValueEvent, .ObjectStartEvent => true
  | .ObjectValueEvent, .ArrayStartEvent => true
  | .ObjectValueEvent, .ObjectKeyEvent => true
  | .ObjectValueEvent, .ObjectEndEvent => true
  | .ObjectValueEvent, .EOFEvent => true
  | .ObjectValueEvent, _ => false
  | _, _ => true

/-- Every adjacent pair of the list satisfies `nextOK`. -/
def chainOK : List Event → Bool
  | [] => true
  | [_] => true
  | a :: b :: t => nextOK a.type b.type && chainOK (b :: t)

/-- Event kinds a successful value parse can end with (scalars and
closing delimiters; never a marker). -/
def endOKt : EventType → Bool
  | .StringEvent => true
  | .NumberEvent => true
  | .BooleanEvent => true
  | .ObjectEndEvent => true
  | .ArrayEndEvent => true
  | _ => false

/-- Event kinds a value's event sequence can start with. -/
def startOKt : EventType → Bool
  | .StringEvent => true
  | .NumberEvent => true
  | .BooleanEvent => true
  | .ObjectStartEvent => true
  | .ArrayStartEvent => true
  | _ => false

def lastOK (es : List Event) : Prop := ∀ e, es.getLast? = some e → endOKt e.type = true

def headOK (es : List Event) : Prop := ∀ e, es.head? = some e → startOKt e.type = true

theorem nextOK_of_endOK {a : EventType} (h : endOKt a = true) (b : EventType) :
    nextOK a b = true := by
  cases a <;> simp_all [endOKt, nextOK]

theorem nextOK_not_marker {a : EventType} (h1 : a ≠ .ObjectKeyEvent)
    (h2 : a ≠ .ObjectValueEvent) (b : EventType) : nextOK a b = true := by
  cases a <;> cases b <;> simp_all [nextOK]

theorem chainOK_cons {a : Event} {es : List Event} (h : chainOK es = true)
    (hh : ∀ e, es.head? = some e → nextOK a.type e.type = true) :
    chainOK (a :: es) = true := by
  cases es with
  | nil => rfl
  | cons b t => simp [chainOK, h, hh b rfl]

theorem chainOK_of_cons {a : Event} {es : List Event} (h : chainOK (a :: es) = true) :
    chainOK es = true := by
  cases es with
  | nil => rfl
  | cons b t => simp [chainOK] at h; exact h.2

theorem chainOK_append {xs ys : List Event} (hx : chainOK xs = true)
    (hy : chainOK ys = true)
    (h : ∀ a b, xs.getLast? = some a → ys.head? = some b → nextOK a.type b.type = true) :
    chainOK (xs ++ ys) = true := by
  induction xs with
  | nil => simpa using hy
  | cons a t ih =>
    cases t with
    | nil =>
      cases ys with
      | nil => rfl
      | cons b u =>
        simp only [List.singleton_append, chainOK, Bool.and_eq_true]
        exact ⟨h a b rfl rfl, hy⟩
    | cons a2 t2 =>
      simp only [List.cons_append, chainOK, Bool.and_eq_true] at hx ⊢
      rcases hx with ⟨h1, h2⟩
      refine ⟨h1, ?_⟩
      have := ih h2 (fun x y hxl hyh => h x y (by
        cases t2 with
        | nil => simpa using hxl
        | cons c t3 => simpa [List.getLast?] using hxl) hyh)
      simpa using this

/-! ### Emission shapes of the scalar lexers -/

theorem readString_shape (s : PState) :
    ((readString s).1 = false ∧ (readString s).2.2 = []) ∨
    (∃ v, (readString s).1 = true ∧ (readString s).2.2 = [evStr v]) := by
  unfold readString
  rcases h1 : readIgnoreWS s with ⟨r, s₁⟩
  simp only []
  split_ifs with h2 h3
  · exact Or.inl ⟨rfl, rfl⟩
  · exact Or.inl ⟨rfl, rfl⟩
  · rcases h4 : strLoopF (s₁.fut.length + 1) s₁ [] with ⟨ok, s₂, raw⟩
    cases ok
    · simp
    · rcases h5 : decodeToUTF8 raw with _ | decoded
      · simp [h5]
      · exact Or.inr ⟨decoded, by simp [h5]⟩

theorem readBoolean_shape (s : PState) :
    ((readBoolean s).1 = false ∧ (readBoolean s).2.2 = []) ∨
    (∃ b, (readBoolean s).1 = true ∧ (readBoolean s).2.2 = [evBool b]) := by
  unfold readBoolean
  repeat' split
  all_goals simp [evBool]

theorem readNumber_shape (s : PState) :
    ((readNumber s).1 = false ∧ (readNumber s).2.2 = []) ∨
    (∃ i, (readNumber s).1 = true ∧ (readNumber s).2.2 = [evInt i]) ∨
    (∃ q, (readNumber s).1 = true ∧ (readNumber s).2.2 = [evFloat q]) := by
  unfold readNumber
  repeat' split
  all_goals simp [evInt, evFloat]

/-! ### The stream-shape invariant of the grammar procedures -/

/-- Invariant of one grammar call: all emitted events are body events,
adjacent pairs satisfy `nextOK`, and a successful call ends in a scalar
or closing event (never a marker). -/
def PRInv (r : PResult) : Prop :=
  bodyOK r.2.2 ∧ chainOK r.2.2 = true ∧ (r.1 = true → lastOK r.2.2)

def headIs (t : EventType) (es : List Event) : Prop :=
  ∀ e, es.head? = some e → e.type = t

theorem bodyOK_nil : bodyOK [] := by simp [bodyOK]

theorem bodyOK_append {xs ys : List Event} (hx : bodyOK xs) (hy : bodyOK ys) :
    bodyOK (xs ++ ys) := by
  intro e he
  rcases List.mem_append.1 he with h | h
  exacts [hx e h, hy e h]

theorem bodyOK_cons {e : Event} {es : List Event}
    (he : (e.type ≠ .UnknownEvent ∧ e.type ≠ .NullEvent ∧ e.type ≠ .EOFEvent) ∧
      e.error = Option.none)
    (h : bodyOK es) : bodyOK (e :: es) := by
  intro x hx
  rcases List.mem_cons.1 hx with h' | h'
  · exact h' ▸ he
  · exact h x h'

theorem headOK_nil : headOK [] := by intro e h; simp at h

theorem headIs_nil (t : EventType) : headIs t [] := by intro e h; simp at h

theorem PRInv_nil (b : Bool) (s : PState) : PRInv (b, s, []) := by
  refine ⟨bodyOK_nil, rfl, fun _ => ?_⟩
  intro e h; simp [List.getLast?] at h

theorem PRInv_evStr (b : Bool) (s : PState) (v : List Byte) : PRInv (b, s, [evStr v]) :=
  ⟨by simp [bodyOK, evStr], rfl, fun _ => by intro e h; simp [List.getLast?] at h; simp [← h, evStr, endOKt]⟩

theorem PRInv_evBool (b : Bool) (s : PState) (v : Bool) : PRInv (b, s, [evBool v]) :=
  ⟨by simp [bodyOK, evBool], rfl, fun _ => by intro e h; simp [List.getLast?] at h; simp [← h, evBool, endOKt]⟩

theorem PRInv_evInt (b : Bool) (s : PState) (v : Int) : PRInv (b, s, [evInt v]) :=
  ⟨by simp [bodyOK, evInt], rfl, fun _ => by intro e h; simp [List.getLast?] at h; simp [← h, evInt, endOKt]⟩

theorem PRInv_evFloat (b : Bool) (s : PState) (v : ℚ) : PRInv (b, s, [evFloat v]) :=
  ⟨by simp [bodyOK, evFloat], rfl, fun _ => by intro e h; simp [List.getLast?] at h; simp [← h, evFloat, endOKt]⟩

theorem evGetLast_cons {a : Event} {es : List Event} (h : es ≠ []) :
    (a :: es).getLast? = es.getLast? := by
  cases es with
  | nil => exact absurd rfl h
  | cons b t => simp [List.getLast?_cons_cons]

theorem evGetLast_append {xs ys : List Event} (h : ys ≠ []) :
    (xs ++ ys).getLast? = ys.getLast? := by
  induction xs with
  | nil => simp
  | cons a t ih =>
    rw [List.cons_append, evGetLast_cons (by simp [h]), ih]

/-- The per-fuel invariants of the seven recursive procedures. -/
def ValP (fuel : Nat) : Prop :=
  ∀ s, PRInv (readValue fuel s) ∧ headOK (readValue fuel s).2.2

def ObjP (fuel : Nat) : Prop :=
  ∀ s, PRInv (readObject fuel s) ∧ headIs .ObjectStartEvent (readObject fuel s).2.2 ∧
    ((readObject fuel s).1 = true → (readObject fuel s).2.2 ≠ [])

def OLoopP (fuel : Nat) : Prop :=
  ∀ s, PRInv (readObjectLoop fuel s) ∧ headIs .ObjectKeyEvent (readObjectLoop fuel s).2.2 ∧
    ((readObjectLoop fuel s).1 = true → (readObjectLoop fuel s).2.2 ≠ [])

def ArrP (fuel : Nat) : Prop :=
  ∀ s, PRInv (readArray fuel s) ∧ headIs .ArrayStartEvent (readArray fuel s).2.2 ∧
    ((readArray fuel s).1 = true → (readArray fuel s).2.2 ≠ [])

def ALoopP (fuel : Nat) : Prop :=
  ∀ s, PRInv (readArrayLoop fuel s) ∧
    ((readArrayLoop fuel s).1 = true → (readArrayLoop fuel s).2.2 ≠ [])

def LoopP (fuel : Nat) : Prop :=
  ∀ s, bodyOK (parseLoop fuel s).2 ∧ chainOK (parseLoop fuel s).2 = true

def AfterP (fuel : Nat) : Prop :=
  ∀ s, bodyOK (parseAfter fuel s).2 ∧ chainOK (parseAfter fuel s).2 = true

theorem valStep (n : Nat) (hO : ObjP n) (hA : ArrP n) : ValP (n + 1) := by
  intro s
  rcases h₁ : readIgnoreWS s with ⟨r, s₁⟩
  simp only [readValue, h₁]
  split_ifs with e1 e2 e3 e4 e5 e6 e7 e8
  · exact ⟨PRInv_nil _ _, headOK_nil⟩
  · rcases readString_shape (unreadByte s₁) with ⟨hf, he⟩ | ⟨v, ht, he⟩
    · rcases hr : readString (unreadByte s₁) with ⟨ok, s', es⟩
      rw [hr] at hf he; subst hf he
      exact ⟨PRInv_nil _ _, headOK_nil⟩
    · rcases hr : readString (unreadByte s₁) with ⟨ok, s', es⟩
      rw [hr] at ht he; subst ht he
      refine ⟨PRInv_evStr _ _ _, ?_⟩
      intro e h; simp at h; simp [← h, evStr, startOKt]
  · exact ⟨PRInv_nil _ _, headOK_nil⟩
  · exact ⟨PRInv_nil _ _, headOK_nil⟩
  · rcases readBoolean_shape (unreadByte s₁) with ⟨hf, he⟩ | ⟨v, ht, he⟩
    · rcases hr : readBoolean (unreadByte s₁) with ⟨ok, s', es⟩
      rw [hr] at hf he; subst hf he
      exact ⟨PRInv_nil _ _, headOK_nil⟩
    · rcases hr : readBoolean (unreadByte s₁) with ⟨ok, s', es⟩
      rw [hr] at ht he; subst ht he
      refine ⟨PRInv_evBool _ _ _, ?_⟩
      intro e h; simp at h; simp [← h, evBool, startOKt]
  · rcases readNumber_shape (unreadByte s₁) with ⟨hf, he⟩ | ⟨i, ht, he⟩ | ⟨q, ht, he⟩
    · rcases hr : readNumber (unreadByte s₁) with ⟨ok, s', es⟩
      rw [hr] at hf he; subst hf he
      exact ⟨PRInv_nil _ _, headOK_nil⟩
    · rcases hr : readNumber (unreadByte s₁) with ⟨ok, s', es⟩
      rw [hr] at ht he; subst ht he
      refine ⟨PRInv_evInt _ _ _, ?_⟩
      intro e h; simp at h; simp [← h, evInt, startOKt]
    · rcases hr : readNumber (unreadByte s₁) with ⟨ok, s', es⟩
      rw [hr] at ht he; subst ht he
      refine ⟨PRInv_evFloat _ _ _, ?_⟩
      intro e h; simp at h; simp [← h, evFloat, startOKt]
  · rcases hO (unreadByte s₁) with ⟨hi, hh, _⟩
    refine ⟨hi, ?_⟩
    intro e h
    rw [hh e h]; rfl
  · rcases hA (unreadByte s₁) with ⟨hi, hh, _⟩
    refine ⟨hi, ?_⟩
    intro e h
    rw [hh e h]; rfl
  · exact ⟨PRInv_nil _ _, headOK_nil⟩

theorem objStep (n : Nat) (hOL : OLoopP n) : ObjP (n + 1) := by
  intro s
  rcases h₁ : readIgnoreWS s with ⟨r, s₁⟩
  rcases h₂ : readIgnoreWS s₁ with ⟨r₂, s₂⟩
  simp only [readObject, h₁, h₂]
  split_ifs with e1 e2 e3 e4
  · exact ⟨PRInv_nil _ _, headIs_nil _, fun h => by simp at h⟩
  · exact ⟨PRInv_nil _ _, headIs_nil _, fun h => by simp at h⟩
  · refine ⟨⟨by simp [bodyOK, evObjStart], rfl, fun h => by simp at h⟩, ?_, fun h => by simp at h⟩
    intro e h; simp at h; simp [← h, evObjStart]
  · refine ⟨⟨by simp [bodyOK, evObjStart, evObjEnd], by simp [chainOK, nextOK, evObjStart, evObjEnd], fun _ => ?_⟩, ?_, fun _ => by simp⟩
    · intro e h; simp [List.getLast?] at h; simp [← h, evObjEnd, endOKt]
    · intro e h; simp at h; simp [← h, evObjStart]
  · rcases hl : readObjectLoop n (unreadByte s₂) with ⟨ok, s₃, es⟩
    rcases hOL (unreadByte s₂) with ⟨⟨hb, hc, hlast⟩, hhead, hne⟩
    rw [hl] at hb hc hlast hhead hne
    simp only []
    refine ⟨⟨?_, ?_, ?_⟩, ?_, fun _ => by simp⟩
    · exact bodyOK_cons (by simp [evObjStart]) hb
    · exact chainOK_cons hc (fun e h => nextOK_not_marker (by simp [evObjStart]) (by simp [evObjStart]) _)
    · intro hok
      have hne' := hne hok
      intro e h
      rw [evGetLast_cons hne'] at h
      exact hlast hok e h
    · intro e h; simp at h; simp [← h, evObjStart]

theorem arrStep (n : Nat) (hAL : ALoopP n) : ArrP (n + 1) := by
  intro s
  rcases h₁ : readIgnoreWS s with ⟨r, s₁⟩
  rcases h₂ : readIgnoreWS s₁ with ⟨r₂, s₂⟩
  simp only [readArray, h₁, h₂]
  split_ifs with e1 e2 e3 e4
  · exact ⟨PRInv_nil _ _, headIs_nil _, fun h => by simp at h⟩
  · exact ⟨PRInv_nil _ _, headIs_nil _, fun h => by simp at h⟩
  · refine ⟨⟨by simp [bodyOK, evArrStart], rfl, fun h => by simp at h⟩, ?_, fun h => by simp at h⟩
    intro e h; simp at h; simp [← h, evArrStart]
  · refine ⟨⟨by simp [bodyOK, evArrStart, evArrEnd], by simp [chainOK, nextOK, evArrStart, evArrEnd], fun _ => ?_⟩, ?_, fun _ => by simp⟩
    · intro e h; simp [List.getLast?] at h; simp [← h, evArrEnd, endOKt]
    · intro e h; simp at h; simp [← h, evArrStart]
  · rcases hl : readArrayLoop n (unreadByte s₂) with ⟨ok, s₃, es⟩
    rcases hAL (unreadByte s₂) with ⟨⟨hb, hc, hlast⟩, hne⟩
    rw [hl] at hb hc hlast hne
    simp only []
    refine ⟨⟨?_, ?_, ?_⟩, ?_, fun _ => by simp⟩
    · exact bodyOK_cons (by simp [evArrStart]) hb
    · exact chainOK_cons hc (fun e h => nextOK_not_marker (by simp [evArrStart]) (by simp [evArrStart]) _)
    · intro hok
      have hne' := hne hok
      intro e h
      rw [evGetLast_cons hne'] at h
      exact hlast hok e h
    · intro e h; simp at h; simp [← h, evArrStart]

theorem nextOK_objValue_start {t : EventType} (h : startOKt t = true) :
    nextOK .ObjectValueEvent t = true := by
  cases t <;> simp_all [startOKt, nextOK]

theorem chainOK_keyval {v : List Byte} {tail : List Event}
    (h : chainOK (evObjValue :: tail) = true) :
    chainOK (evObjKey :: evStr v :: evObjValue :: tail) = true := by
  have h1 : nextOK evObjKey.type (evStr v).type = true := rfl
  have h2 : nextOK (evStr v).type evObjValue.type = true := rfl
  simp only [chainOK, h1, h2, Bool.true_and]
  exact h

theorem chainOK_objValue_head {es₂ : List Event} (hc : chainOK es₂ = true)
    (hh : headOK es₂) : chainOK (evObjValue :: es₂) = true :=
  chainOK_cons hc (fun e h => nextOK_objValue_start (hh e h))

theorem chainOK_objValue_end {es₂ : List Event} (hc : chainOK es₂ = true)
    (hh : headOK es₂) (hl : lastOK es₂) :
    chainOK (evObjValue :: (es₂ ++ [evObjEnd])) = true := by
  refine chainOK_cons ?_ ?_
  · refine chainOK_append hc rfl ?_
    intro a b hla hhb
    simp at hhb
    rw [← hhb]
    exact nextOK_of_endOK (hl a hla) _
  · intro e h
    cases es₂ with
    | nil => simp at h; rw [← h]; rfl
    | cons x t =>
      simp at h
      rw [← h]
      exact nextOK_objValue_start (hh x rfl)

theorem chainOK_objValue_loop {es₂ es₃ : List Event} (hc : chainOK es₂ = true)
    (hh : headOK es₂) (hl : lastOK es₂) (hc₃ : chainOK es₃ = true)
    (hh₃ : headIs .ObjectKeyEvent es₃) :
    chainOK (evObjValue :: (es₂ ++ es₃)) = true := by
  refine chainOK_cons ?_ ?_
  · refine chainOK_append hc hc₃ ?_
    intro a b hla hhb
    exact nextOK_of_endOK (hl a hla) _
  · intro e h
    cases es₂ with
    | nil =>
      simp at h
      rw [hh₃ e h]
      rfl
    | cons x t =>
      simp at h
      rw [← h]
      exact nextOK_objValue_start (hh x rfl)

theorem oloopStep (n : Nat) (hV : ValP n) (hOL : OLoopP n) : OLoopP (n + 1) := by
  intro s
  rcases hs : readString s with ⟨ok₁, s₁, es₁⟩
  have hshape := readString_shape s
  rw [hs] at hshape
  simp only [readObjectLoop, hs]
  rcases hshape with ⟨hf, he⟩ | ⟨v, ht, he⟩
  · subst hf he
    simp only []
    refine ⟨⟨by simp [bodyOK, evObjKey], rfl, fun h => by simp at h⟩, ?_, fun h => by simp at h⟩
    intro e h; simp at h; simp [← h, evObjKey]
  · subst ht he
    simp only []
    rcases h₂ : readIgnoreWS s₁ with ⟨r, s₂⟩
    simp only [h₂]
    split_ifs with e1
    · refine ⟨⟨by simp [bodyOK, evObjKey, evStr], ?_, fun h => by simp at h⟩, ?_, fun h => by simp at h⟩
      · simp [chainOK, evObjKey, evStr, nextOK]
      · intro e h; simp at h; simp [← h, evObjKey]
    · rcases hv : readValue n s₂ with ⟨ok₂, s₃, es₂⟩
      obtain ⟨⟨hb₂, hc₂, hl₂⟩, hh₂⟩ := hV s₂
      rw [hv] at hb₂ hc₂ hl₂ hh₂
      have hbody : bodyOK (evObjKey :: evStr v :: evObjValue :: es₂) :=
        bodyOK_cons (by simp [evObjKey]) (bodyOK_cons (by simp [evStr])
          (bodyOK_cons (by simp [evObjValue]) hb₂))
      cases ok₂
      · simp only [List.cons_append, List.nil_append]
        refine ⟨⟨hbody, ?_, fun h => by simp at h⟩, ?_, fun h => by simp at h⟩
        · exact chainOK_keyval (chainOK_objValue_head hc₂ hh₂)
        · intro e h; simp at h; simp [← h, evObjKey]
      · have hl₂' := hl₂ rfl
        rcases h₃ : readIgnoreWS s₃ with ⟨r₂, s₄⟩
        simp only [h₃]
        split_ifs with f1 f2 f3
        · simp only [List.cons_append, List.nil_append]
          refine ⟨⟨hbody, ?_, fun h => by simp at h⟩, ?_, fun h => by simp at h⟩
          · exact chainOK_keyval (chainOK_objValue_head hc₂ hh₂)
          · intro e h; simp at h; simp [← h, evObjKey]
        · simp only [List.cons_append, List.nil_append, List.append_assoc]
          refine ⟨⟨?_, ?_, fun _ => ?_⟩, ?_, fun _ => by simp⟩
          · exact bodyOK_cons (by simp [evObjKey]) (bodyOK_cons (by simp [evStr])
              (bodyOK_cons (by simp [evObjValue]) (bodyOK_append hb₂ (by simp [bodyOK, evObjEnd]))))
          · exact chainOK_keyval (chainOK_objValue_end hc₂ hh₂ hl₂')
          · intro e h
            rw [evGetLast_cons (by simp), evGetLast_cons (by simp),
                evGetLast_cons (by simp), evGetLast_append (by simp)] at h
            simp [List.getLast?] at h
            simp [← h, evObjEnd, endOKt]
          · intro e h; simp at h; simp [← h, evObjKey]
        · simp only [List.cons_append, List.nil_append]
          refine ⟨⟨hbody, ?_, fun h => by simp at h⟩, ?_, fun h => by simp at h⟩
          · exact chainOK_keyval (chainOK_objValue_head hc₂ hh₂)
          · intro e h; simp at h; simp [← h, evObjKey]
        · rcases hl : readObjectLoop n s₄ with ⟨ok₃, s₅, es₃⟩
          obtain ⟨⟨hb₃, hc₃, hl₃⟩, hh₃, hne₃⟩ := hOL s₄
          rw [hl] at hb₃ hc₃ hl₃ hh₃ hne₃
          simp only [List.cons_append, List.nil_append, List.append_assoc]
          refine ⟨⟨?_, ?_, fun hok => ?_⟩, ?_, fun _ => by simp⟩
          · exact bodyOK_cons (by simp [evObjKey]) (bodyOK_cons (by simp [evStr])
              (bodyOK_cons (by simp [evObjValue]) (bodyOK_append hb₂ hb₃)))
          · exact chainOK_keyval (chainOK_objValue_loop hc₂ hh₂ hl₂' hc₃ hh₃)
          · have hne' := hne₃ hok
            have hne'' : es₂ ++ es₃ ≠ [] := fun hcon => hne' (List.append_eq_nil.mp hcon).2
            intro e h
            rw [evGetLast_cons (by simp), evGetLast_cons (by simp),
                evGetLast_cons hne'', evGetLast_append hne'] at h
            exact hl₃ hok e h
          · intro e h; simp at h; simp [← h, evObjKey]

theorem aloopStep (n : Nat) (hV : ValP n) (hAL : ALoopP n) : ALoopP (n + 1) := by
  intro s
  rcases hv : readValue n s with ⟨ok₁, s₁, es₁⟩
  obtain ⟨⟨hb₁, hc₁, hl₁⟩, hh₁⟩ := hV s
  rw [hv] at hb₁ hc₁ hl₁ hh₁
  simp only [readArrayLoop, hv]
  cases ok₁
  · exact ⟨⟨hb₁, hc₁, fun h => by simp at h⟩, fun h => by simp at h⟩
  · have hl₁' := hl₁ rfl
    rcases h₂ : readIgnoreWS s₁ with ⟨r, s₂⟩
    simp only [h₂]
    split_ifs with f1 f2 f3
    · exact ⟨⟨hb₁, hc₁, fun h => by simp at h⟩, fun h => by simp at h⟩
    · refine ⟨⟨bodyOK_append hb₁ (by simp [bodyOK, evArrEnd]), ?_, fun _ => ?_⟩, fun _ => by simp⟩
      · refine chainOK_append hc₁ rfl ?_
        intro a b hla hhb
        simp at hhb
        rw [← hhb]
        exact nextOK_of_endOK (hl₁' a hla) _
      · intro e h
        rw [evGetLast_append (by simp)] at h
        simp [List.getLast?] at h
        simp [← h, evArrEnd, endOKt]
    · exact ⟨⟨hb₁, hc₁, fun h => by simp at h⟩, fun h => by simp at h⟩
    · rcases hl : readArrayLoop n s₂ with ⟨ok₂, s₃, es₂⟩
      obtain ⟨⟨hb₂, hc₂, hl₂⟩, hne₂⟩ := hAL s₂
      rw [hl] at hb₂ hc₂ hl₂ hne₂
      simp only []
      refine ⟨⟨bodyOK_append hb₁ hb₂, ?_, fun hok => ?_⟩, fun hok => ?_⟩
      · refine chainOK_append hc₁ hc₂ ?_
        intro a b hla hhb
        exact nextOK_of_endOK (hl₁' a hla) _
      · have hne' := hne₂ hok
        intro e h
        rw [evGetLast_append hne'] at h
        exact hl₂ hok e h
      · have hne' := hne₂ hok
        intro hcon
        exact hne' (List.append_eq_nil.mp hcon).2

theorem parseDocInv (n : Nat) (hO : ObjP n) (hA : ArrP n) (s : PState) :
    PRInv (parseDoc n s) := by
  rcases h₁ : readByte s with ⟨r, s₁⟩
  simp only [parseDoc, h₁]
  split_ifs with e1 e2 e3
  · exact PRInv_nil _ _
  · exact (hO (unreadByte s₁)).1
  · exact (hA (unreadByte s₁)).1
  · exact PRInv_nil _ _

theorem loopStep (n : Nat) (hO : ObjP n) (hA : ArrP n) (hAf : AfterP n) :
    LoopP (n + 1) := by
  intro s
  rcases hd : parseDoc n s with ⟨ok, s₁, es⟩
  have hinv := parseDocInv n hO hA s
  rw [hd] at hinv
  obtain ⟨hb, hc, hl⟩ := hinv
  simp only [parseLoop, hd]
  cases ok
  · exact ⟨hb, hc⟩
  · rcases ha : parseAfter n s₁ with ⟨s₂, es₂⟩
    obtain ⟨hb₂, hc₂⟩ := hAf s₁
    rw [ha] at hb₂ hc₂
    simp only [ha]
    exact ⟨bodyOK_append hb hb₂,
      chainOK_append hc hc₂ (fun a b hla hhb => nextOK_of_endOK (hl rfl a hla) _)⟩

theorem afterStep (n : Nat) (hL : LoopP n) : AfterP (n + 1) := by
  intro s
  rcases h₁ : readIgnoreWS s with ⟨r, s₁⟩
  simp only [parseAfter, h₁]
  split_ifs with e1
  · exact ⟨bodyOK_nil, rfl⟩
  · exact hL _

/-- The combined stream-shape invariant, for every fuel. -/
theorem grammarInv (fuel : Nat) :
    ValP fuel ∧ ObjP fuel ∧ OLoopP fuel ∧ ArrP fuel ∧ ALoopP fuel ∧
      LoopP fuel ∧ AfterP fuel := by
  induction fuel with
  | zero =>
    refine ⟨fun s => ?_, fun s => ?_, fun s => ?_, fun s => ?_, fun s => ?_,
      fun s => ?_, fun s => ?_⟩
    · exact ⟨PRInv_nil _ _, headOK_nil⟩
    · exact ⟨PRInv_nil _ _, headIs_nil _, fun h => by simp [readObject] at h⟩
    · exact ⟨PRInv_nil _ _, headIs_nil _, fun h => by simp [readObjectLoop] at h⟩
    · exact ⟨PRInv_nil _ _, headIs_nil _, fun h => by simp [readArray] at h⟩
    · exact ⟨PRInv_nil _ _, fun h => by simp [readArrayLoop] at h⟩
    · exact ⟨bodyOK_nil, rfl⟩
    · exact ⟨bodyOK_nil, rfl⟩
  | succ n ih =>
    obtain ⟨hV, hO, hOL, hA, hAL, hL, hAf⟩ := ih
    exact ⟨valStep n hO hA, objStep n hOL, oloopStep n hV hOL, arrStep n hAL,
      aloopStep n hV hAL, loopStep n hO hA hAf, afterStep n hL⟩

theorem nextOK_eof (a : EventType) : nextOK a .EOFEvent = true := by
  cases a <;> rfl

/-- C1 (amended): the emitted sequence is a list of body events (none of
them an `EOFEvent`, all with `nil` error) followed by exactly one
terminal `EOFEvent` carrying the recorded `ParseError` when the parse
ended with one; when the recorded error is `io.EOF` or absent (clean
exhaustion), no `EOFEvent` is emitted at all. -/
theorem parse_terminal_eof (fuel : Nat) (input : List Byte) :
    ∃ body : List Event,
      (∀ e ∈ body, e.type ≠ .EOFEvent ∧ e.error = Option.none) ∧
      ((getError (parseLoop fuel (initState input)).1 = Option.none ∧
          parseEvents fuel input = body) ∨
        (∃ m l p,
          getError (parseLoop fuel (initState input)).1 =
            some (.parseError m l p) ∧
          parseEvents fuel input =
            body ++ [⟨.EOFEvent, .none, some (.parseError m l p)⟩])) := by
  obtain ⟨hb, _⟩ := (grammarInv fuel).2.2.2.2.2.1 (initState input)
  refine ⟨(parseLoop fuel (initState input)).2,
    fun e he => ⟨(hb e he).1.2.2, (hb e he).2⟩, ?_⟩
  unfold parseEvents Parse
  rcases hp : parseLoop fuel (initState input) with ⟨s', es⟩
  simp only [hp]
  unfold getError
  rcases hg : s'.err with _ | ge
  · exact Or.inl ⟨rfl, rfl⟩
  · cases ge with
    | ioEOF => exact Or.inl ⟨rfl, rfl⟩
    | parseError m l p => exact Or.inr ⟨m, l, p, rfl, rfl⟩

/-- C1 counterexample: parsing the complete document consisting of an
empty object emits no `EOFEvent` at all, contradicting the claim that
every event sequence ends with exactly one `EOFEvent`. -/
theorem parse_empty_object_no_eof :
    parseEvents 30 [123, 125] = [evObjStart, evObjEnd] ∧
    ∀ e ∈ parseEvents 30 [123, 125], e.type ≠ .EOFEvent := by
  have h : parseEvents 30 [123, 125] = [evObjStart, evObjEnd] := by
    simp [parseEvents, Parse, parseLoop, parseDoc, readObject, readIgnoreWS, igWSF,
      readByte, unreadByte, initState, parseAfter, getError, serr, isSpace,
      evObjStart, evObjEnd]
  refine ⟨h, ?_⟩
  rw [h]
  decide

/-- C4 (amended): in every emitted sequence, an `ObjectKeyEvent` is
immediately followed by a `StringEvent` or by the terminal `EOFEvent`,
and an `ObjectValueEvent` by the first event of a value (`String`,
`Number`, `Boolean`, `ObjectStart`, `ArrayStart`), or — when the value
emitted no event (the single-quote path) or failed — by the object's
next `ObjectKeyEvent`, its `ObjectEndEvent`, or the terminal
`EOFEvent`. -/
theorem marker_successors (fuel : Nat) (input : List Byte) :
    chainOK (parseEvents fuel input) = true := by
  obtain ⟨_, hc⟩ := (grammarInv fuel).2.2.2.2.2.1 (initState input)
  unfold parseEvents Parse
  rcases hp : parseLoop fuel (initState input) with ⟨s', es⟩
  rw [hp] at hc
  simp only [hp]
  rcases getError s' with _ | e
  · exact hc
  · refine chainOK_append hc rfl ?_
    intro a b _ hhb
    simp at hhb
    rw [← hhb]
    exact nextOK_eof _

/-- C4 counterexample: on the malformed input consisting of an open
brace, the byte `f` and a close brace, the `ObjectKeyEvent` is
immediately followed by the terminal `EOFEvent`, not by a
`StringEvent`. -/
theorem object_key_followed_by_eof :
    parseEvents 30 [123, 102, 125] =
      [evObjStart, evObjKey,
        ⟨.EOFEvent, .none, some (.parseError "expected \" but got f" 1 2)⟩] ∧
    (parseEvents 30 [123, 102, 125]).map Event.type =
      [.ObjectStartEvent, .ObjectKeyEvent, .EOFEvent] := by
  have h : parseEvents 30 [123, 102, 125] =
      [evObjStart, evObjKey,
        ⟨.EOFEvent, .none, some (.parseError "expected \" but got f" 1 2)⟩] := by
    simp [parseEvents, Parse, parseLoop, parseDoc, readObject, readObjectLoop,
      readString, strLoopF, readIgnoreWS, igWSF, readByte, unreadByte, initState,
      parseAfter, getError, serr, isSpace, evObjStart, evObjKey, charStr,
      unexpectedEOFMsg]
  refine ⟨h, ?_⟩
  rw [h]
  decide

/-- C10: no execution of the parser ever emits a `NullEvent`; an input
whose value position begins with the byte `n` (here the JSON document
with key "a" and value `null`) fails the whole parse with the
structural error "unexpected character n". -/
theorem null_never_emitted :
    (∀ fuel input, ∀ e ∈ parseEvents fuel input, e.type ≠ .NullEvent) ∧
    parseEvents 30 [123, 34, 97, 34, 58, 32, 110, 117, 108, 108, 125] =
      [evObjStart, evObjKey, evStr [97], evObjValue,
        ⟨.EOFEvent, .none, some (.parseError "unexpected character n" 1 7)⟩] := by
  constructor
  · intro fuel input e he
    obtain ⟨hb, _⟩ := (grammarInv fuel).2.2.2.2.2.1 (initState input)
    unfold parseEvents Parse at he
    rcases hp : parseLoop fuel (initState input) with ⟨s', es⟩
    rw [hp] at hb he
    rcases hg : getError s' with _ | ge
    all_goals simp only [hg] at he
    · exact (hb e he).1.2.1
    · rcases List.mem_append.1 he with h | h
      · exact (hb e h).1.2.1
      · simp at h
        rw [h]
        simp
  · simp [parseEvents, Parse, parseLoop, parseDoc, readObject, readObjectLoop,
      readValue, readString, strLoopF, decodeToUTF8, cleanLenF, decSlow,
      readIgnoreWS, igWSF, readByte, unreadByte, initState, parseAfter, getError,
      serr, isSpace, isDigit, evObjStart, evObjKey, evObjValue, evStr, charStr,
      unexpectedEOFMsg]

/-- C8: the document with key "foo" and string value "bar" emits exactly
ObjectStart, ObjectKey, String("foo"), ObjectValue, String("bar"),
ObjectEnd, and the empty object emits exactly ObjectStart, ObjectEnd;
neither parse records an error. -/
theorem simple_object_events :
    parseEvents 30 [123, 34, 102, 111, 111, 34, 58, 32, 34, 98, 97, 114, 34, 125] =
      [evObjStart, evObjKey, evStr [102, 111, 111], evObjValue,
        evStr [98, 97, 114], evObjEnd] ∧
    parseEvents 30 [123, 125] = [evObjStart, evObjEnd] := by
  constructor
  · simp [parseEvents, Parse, parseLoop, parseDoc, readObject, readObjectLoop,
      readValue, readString, strLoopF, decodeToUTF8, cleanLenF, decSlow,
      utf8DecodeRune, readIgnoreWS, igWSF, readByte, unreadByte, initState,
      parseAfter, getError, serr, isSpace, isDigit, evObjStart, evObjKey,
      evObjValue, evObjEnd, evStr, unexpectedEOFMsg]
  · simp [parseEvents, Parse, parseLoop, parseDoc, readObject, readIgnoreWS, igWSF,
      readByte, unreadByte, initState, parseAfter, getError, serr, isSpace,
      evObjStart, evObjEnd]

/-! ### The cursor push-back claims -/

/-- The state after `readByte` consumes `b` when `fut = b :: rest`. -/
def advState (s : PState) (b : Byte) (rest : List Byte) : PState :=
  if b = 10 then
    { s with past := b :: s.past, fut := rest,
             line := s.line + 1, position := 0, unreadChangesLine := true }
  else
    { s with past := b :: s.past, fut := rest,
             position := s.position + 1, unreadChangesLine := false }

theorem readByte_eq_adv {s : PState} {b : Byte} {rest : List Byte}
    (h : s.fut = b :: rest) : readByte s = (b, advState s b rest) := by
  obtain ⟨p, f, l, pos, u, e⟩ := s
  simp only [] at h
  subst h
  by_cases hb : b = 10 <;> simp [readByte, advState, hb]

theorem readByte_eq_nil {s : PState} (h : s.fut = []) :
    readByte s = (0, { s with err := some .ioEOF }) := by
  obtain ⟨p, f, l, pos, u, e⟩ := s
  simp only [] at h
  subst h
  rfl

theorem advState_fut (s : PState) (b : Byte) (rest : List Byte) :
    (advState s b rest).fut = rest := by
  by_cases hb : b = 10 <;> simp [advState, hb]

theorem advState_err (s : PState) (b : Byte) (rest : List Byte) :
    (advState s b rest).err = s.err := by
  by_cases hb : b = 10 <;> simp [advState, hb]

theorem unread_adv_fut (s : PState) (b : Byte) (rest : List Byte) :
    (unreadByte (advState s b rest)).fut = b :: rest := by
  by_cases hb : b = 10 <;> simp [advState, unreadByte, hb]

theorem unread_adv_err (s : PState) (b : Byte) (rest : List Byte) :
    (unreadByte (advState s b rest)).err = s.err := by
  by_cases hb : b = 10 <;> simp [advState, unreadByte, hb]

/-- C2 (amended): after one `readByte` advance that returned the byte
`b`, `unreadByte` always restores `line` and the remaining input, and
restores `position` exactly when `b` is not a newline; when `b` is a
newline, `position` is set to 0 instead of the previous column. -/
theorem unread_restores (s : PState) (b : Byte) (rest : List Byte)
    (h : s.fut = b :: rest) :
    (unreadByte (readByte s).2).line = s.line ∧
    (b ≠ 10 → (unreadByte (readByte s).2).position = s.position) ∧
    (b = 10 → (unreadByte (readByte s).2).position = 0) ∧
    (unreadByte (readByte s).2).fut = s.fut := by
  rw [readByte_eq_adv h]
  obtain ⟨p, f, l, pos, u, e⟩ := s
  simp only [] at h
  subst h
  by_cases hb : b = 10
  · subst hb
    refine ⟨by simp [advState, unreadByte], fun hne => absurd rfl hne,
      fun _ => by simp [advState, unreadByte], by simp [advState, unreadByte]⟩
  · exact ⟨by simp [advState, unreadByte, hb], fun _ => by simp [advState, unreadByte, hb],
      fun heq => absurd heq hb, by simp [advState, unreadByte, hb]⟩

/-- Witness for the amended C2 at a concrete reachable state. -/
theorem unread_restores_witness :
    (initState [49, 48]).fut = 49 :: [48] ∧
    (unreadByte (readByte (initState [49, 48])).2).line = (initState [49, 48]).line ∧
    (unreadByte (readByte (initState [49, 48])).2).position = (initState [49, 48]).position := by
  have h := unread_restores (initState [49, 48]) 49 [48] rfl
  exact ⟨rfl, h.1, h.2.1 (by decide)⟩

/-- C2 counterexample: the state reached by reading the two bytes "10"
of the input "10\n}" has position 2; reading the newline and pushing it
back yields position 0, not 2, so push-back across a newline does not
restore the prior position. -/
theorem unread_newline_loses_position :
    ((readByte (readByte (initState [49, 48, 10, 125])).2).2).position = 2 ∧
    ((readByte (readByte (initState [49, 48, 10, 125])).2).2).fut = [10, 125] ∧
    (unreadByte (readByte ((readByte (readByte (initState [49, 48, 10, 125])).2).2)).2).line =
      ((readByte (readByte (initState [49, 48, 10, 125])).2).2).line ∧
    (unreadByte (readByte ((readByte (readByte (initState [49, 48, 10, 125])).2).2)).2).position = 0 ∧
    (0 : Int) ≠ 2 := by
  refine ⟨?_, ?_, ?_, ?_, by decide⟩ <;>
    simp [initState, readByte, unreadByte]

/-! ### The boolean lexer claims -/

/-- C3 (amended): the boolean lexer emits `Boolean(true)` exactly when
the first four bytes spell "true"; otherwise it reads one more byte and
emits `Boolean(false)` exactly when that fifth byte is `e`, regardless
of what the first four bytes were; in all other cases it fails and
emits nothing. -/
theorem readBoolean_spec (s : PState) (b1 b2 b3 b4 : Byte) (rest : List Byte)
    (h : s.fut = b1 :: b2 :: b3 :: b4 :: rest)
    (h1 : b1 ≠ 0) (h2 : b2 ≠ 0) (h3 : b3 ≠ 0) (h4 : b4 ≠ 0) :
    ([b1, b2, b3, b4] = [116, 114, 117, 101] →
      (readBoolean s).1 = true ∧ (readBoolean s).2.2 = [evBool true]) ∧
    ([b1, b2, b3, b4] ≠ [116, 114, 117, 101] →
      (rest = [] → (readBoolean s).1 = false ∧ (readBoolean s).2.2 = []) ∧
      (∀ b5 rest', rest = b5 :: rest' →
        (b5 = 101 → (readBoolean s).1 = true ∧ (readBoolean s).2.2 = [evBool false]) ∧
        (b5 ≠ 101 → (readBoolean s).1 = false ∧ (readBoolean s).2.2 = []))) := by
  have e1 := readByte_eq_adv h
  set s1 := advState s b1 (b2 :: b3 :: b4 :: rest) with hs1
  have e2 := readByte_eq_adv (show s1.fut = b2 :: (b3 :: b4 :: rest) from advState_fut s b1 _)
  set s2 := advState s1 b2 (b3 :: b4 :: rest) with hs2
  have e3 := readByte_eq_adv (show s2.fut = b3 :: (b4 :: rest) from advState_fut s1 b2 _)
  set s3 := advState s2 b3 (b4 :: rest) with hs3
  have e4 := readByte_eq_adv (show s3.fut = b4 :: rest from advState_fut s2 b3 _)
  set s4 := advState s3 b4 rest with hs4
  simp only [readBoolean, e1, e2, e3, e4, if_neg h1, if_neg h2, if_neg h3, if_neg h4]
  constructor
  · intro htrue
    rw [if_pos htrue]
    exact ⟨rfl, rfl⟩
  · intro hne
    rw [if_neg hne]
    constructor
    · intro hrest
      rw [readByte_eq_nil (by rw [advState_fut, hrest])]
      simp
    · intro b5 rest' hrest
      have e5 := readByte_eq_adv (show s4.fut = b5 :: rest' by rw [advState_fut, hrest])
      rw [e5]
      constructor
      · intro hb5
        subst hb5
        simp
      · intro hb5
        by_cases hz : b5 = 0
        · subst hz
          simp
        · simp [if_neg hz, if_pos hb5]

/-- Witness for the amended C3: on "true" the lexer emits the true
event, and on "fakee" (first four bytes not "true", fifth byte `e`) it
emits the false event. -/
theorem readBoolean_spec_witness :
    ((readBoolean (initState [116, 114, 117, 101])).2.2 = [evBool true]) ∧
    ((readBoolean (initState [102, 97, 107, 101, 101])).2.2 = [evBool false]) := by
  have ht := readBoolean_spec (initState [116, 114, 117, 101]) 116 114 117 101 []
    rfl (by decide) (by decide) (by decide) (by decide)
  have hf := readBoolean_spec (initState [102, 97, 107, 101, 101]) 102 97 107 101 [101]
    rfl (by decide) (by decide) (by decide) (by decide)
  exact ⟨(ht.1 rfl).2,
    (((hf.2 (by decide)).2 101 [] rfl).1 rfl).2⟩

/-- C3 counterexample: the full parse of the document with key "a" and
value `fakee` succeeds and emits `Boolean(false)`, although the five
bytes `fakee` do not spell "false". -/
theorem fakee_parses_as_false :
    parseEvents 30 [123, 34, 97, 34, 58, 32, 102, 97, 107, 101, 101, 125] =
      [evObjStart, evObjKey, evStr [97], evObjValue, evBool false, evObjEnd] ∧
    [102, 97, 107, 101, 101] ≠ [102, 97, 108, 115, 101] := by
  constructor
  · simp [parseEvents, Parse, parseLoop, parseDoc, readObject, readObjectLoop,
      readValue, readString, strLoopF, decodeToUTF8, cleanLenF, decSlow,
      readBoolean, readIgnoreWS, igWSF, readByte, unreadByte, initState,
      parseAfter, getError, serr, isSpace, isDigit, evObjStart, evObjKey,
      evObjValue, evObjEnd, evStr, evBool, unexpectedEOFMsg]
  · decide

/-! ### Top-level whitespace handling -/

/-- C5 (amended): the top-level dispatch happens on the raw first byte
of the stream, so an input that begins with a whitespace byte fails
immediately with the structural error "unexpected character", emitting
only the terminal `EOFEvent`; whitespace is skipped only inside a
document and between documents, not before the first one. -/
theorem leading_whitespace_fails (b : Byte) (rest : List Byte) (fuel : Nat)
    (hb : isSpace b = true) (hf : 1 ≤ fuel) :
    parseEvents fuel (b :: rest) =
      [⟨.EOFEvent, .none, some (.parseError ("unexpected character " ++ charStr b)
        (if b = 10 then 2 else 1) (if b = 10 then 0 else 1))⟩] := by
  obtain ⟨n, rfl⟩ : ∃ n, fuel = n + 1 := ⟨fuel - 1, by omega⟩
  have hb' : b = 9 ∨ b = 10 ∨ b = 11 ∨ b = 12 ∨ b = 13 ∨ b = 32 ∨ b = 133 ∨ b = 160 := by
    have := hb
    simp [isSpace] at this
    tauto
  unfold parseEvents Parse parseLoop parseDoc
  rw [readByte_eq_adv (show (initState (b :: rest)).fut = b :: rest from rfl)]
  rcases hb' with rfl | rfl | rfl | rfl | rfl | rfl | rfl | rfl <;>
    simp [advState, initState, serr, getError, charStr]

/-- Witness for the amended C5: a single leading space before an empty
object makes the whole parse fail with "unexpected character". -/
theorem leading_whitespace_fails_witness :
    isSpace 32 = true ∧
    parseEvents 5 [32, 123, 125] =
      [⟨.EOFEvent, .none, some (.parseError ("unexpected character " ++ charStr 32) 1 1)⟩] := by
  have h := leading_whitespace_fails 32 [123, 125] 5 (by decide) (by decide)
  exact ⟨by decide, h⟩

/-- C5 counterexample: the input consisting of one space followed by a
valid empty object does not parse; it emits only a terminal `EOFEvent`
carrying the error "unexpected character" at line 1, position 1. -/
theorem space_then_object_fails :
    parseEvents 30 [32, 123, 125] =
      [⟨.EOFEvent, .none, some (.parseError "unexpected character  " 1 1)⟩] := by
  simp [parseEvents, Parse, parseLoop, parseDoc, readByte, initState, parseAfter,
    getError, serr, charStr]

/-! ### The number lexer claims -/

theorem isNumByte_ne_zero {c : Byte} (h : isNumByte c = true) : c ≠ 0 := by
  intro h0
  subst h0
  simp [isNumByte, isFloatByte, isDigit] at h

theorem numLoopF_run (run : List Byte) : ∀ (fuel : Nat) (s : PState)
    (acc : List Byte) (isF : Bool) (t : Byte) (rest : List Byte),
    s.fut = run ++ t :: rest → (∀ c ∈ run, isNumByte c = true) →
    isNumByte t = false → t ≠ 0 → s.fut.length < fuel →
    ∃ s', numLoopF fuel s acc isF =
        (true, s', acc ++ run, isF || run.any isFloatByte) ∧
      s'.fut = t :: rest ∧ s'.err = s.err := by
  induction run with
  | nil =>
    intro fuel s acc isF t rest h hnum ht ht0 hfl
    obtain ⟨m, rfl⟩ : ∃ m, fuel = m + 1 := ⟨fuel - 1, by omega⟩
    simp only [List.nil_append] at h
    have e1 := readByte_eq_adv h
    have hft : isFloatByte t = false := by
      simp [isNumByte, Bool.or_eq_false_iff] at ht
      exact ht.1.1.1
    refine ⟨unreadByte (advState s t rest), ?_, unread_adv_fut s t rest, ?_⟩
    · simp [numLoopF, e1, ht0, hft, ht]
    · exact unread_adv_err s t rest

  | cons c run' ih =>
    intro fuel s acc isF t rest h hnum ht ht0 hfl
    obtain ⟨m, rfl⟩ : ∃ m, fuel = m + 1 := ⟨fuel - 1, by omega⟩
    simp only [List.cons_append] at h
    have e1 := readByte_eq_adv h
    have hc : isNumByte c = true := hnum c (List.mem_cons_self c run')
    have hc0 : c ≠ 0 := isNumByte_ne_zero hc
    have hlen : (advState s c (run' ++ t :: rest)).fut.length < m := by
      rw [advState_fut]
      rw [h] at hfl
      simpa using hfl
    by_cases hcf : isFloatByte c
    · obtain ⟨s', he, hf, herr⟩ := ih m (advState s c (run' ++ t :: rest))
        (acc ++ [c]) true t rest (advState_fut ..) (fun x hx => hnum x (List.mem_cons_of_mem c hx))
        ht ht0 hlen
      refine ⟨s', ?_, hf, by rw [herr]; exact advState_err ..⟩
      rw [show numLoopF (m + 1) s acc isF =
        numLoopF m (advState s c (run' ++ t :: rest)) (acc ++ [c]) true by
          simp [numLoopF, e1, hc0, hcf], he]
      simp [hcf]
    · obtain ⟨s', he, hf, herr⟩ := ih m (advState s c (run' ++ t :: rest))
        (acc ++ [c]) isF t rest (advState_fut ..) (fun x hx => hnum x (List.mem_cons_of_mem c hx))
        ht ht0 hlen
      refine ⟨s', ?_, hf, by rw [herr]; exact advState_err ..⟩
      rw [show numLoopF (m + 1) s acc isF =
        numLoopF m (advState s c (run' ++ t :: rest)) (acc ++ [c]) isF by
          simp [numLoopF, e1, hc0, hcf, hc], he]
      simp [hcf]

/-- C6 (amended): a maximal numeric run that is followed by a further
(non-numeric, non-NUL) byte is parsed with the representation chosen
lexically — `float64` exactly when the run contains `.`, `e` or `E`,
`int64` otherwise, never by range overflow — emitting exactly one
Number event on success and failing the parse exactly when the run
fails decimal parsing under the chosen representation; a run that ends
at end of stream instead fails with "unexpected end of file" without
emitting an event. -/
theorem readNumber_representation (s : PState) (run : List Byte) (t : Byte)
    (rest : List Byte) (h : s.fut = run ++ t :: rest)
    (hnum : ∀ c ∈ run, isNumByte c = true) (ht : isNumByte t = false) (ht0 : t ≠ 0) :
    (run.any isFloatByte = true →
      (∃ q, goParseFloat run = .ok q ∧ (readNumber s).1 = true ∧
          (readNumber s).2.2 = [evFloat q]) ∨
      (∃ m, goParseFloat run = .error m ∧ (readNumber s).1 = false ∧
          (readNumber s).2.2 = [])) ∧
    (run.any isFloatByte = false →
      (∃ i, goParseInt run = .ok i ∧ (readNumber s).1 = true ∧
          (readNumber s).2.2 = [evInt i]) ∨
      (∃ m, goParseInt run = .error m ∧ (readNumber s).1 = false ∧
          (readNumber s).2.2 = [])) := by
  obtain ⟨s', he, _, _⟩ := numLoopF_run run (s.fut.length + 1) s [] false t rest h
    hnum ht ht0 (Nat.lt_succ_self _)
  simp only [List.nil_append, Bool.false_or] at he
  constructor
  · intro hfc
    rw [hfc] at he
    rcases hq : goParseFloat run with m | q
    · exact Or.inr ⟨m, rfl, by simp [readNumber, he, hq]⟩
    · exact Or.inl ⟨q, rfl, by simp [readNumber, he, hq]⟩
  · intro hfc
    rw [hfc] at he
    rcases hq : goParseInt run with m | i
    · exact Or.inr ⟨m, rfl, by simp [readNumber, he, hq]⟩
    · exact Or.inl ⟨i, rfl, by simp [readNumber, he, hq]⟩


/-- Witness for the amended C6: the run "10" is emitted as the integer
representation 10 and the run "10.0" as the float representation 10.0,
both when followed by a closing brace. -/
theorem readNumber_representation_witness :
    (readNumber (initState [49, 48, 125])).2.2 = [evInt 10] ∧
    (readNumber (initState [49, 48, 46, 48, 125])).2.2 = [evFloat 10] := by
  have hpi : goParseInt [49, 48] = .ok 10 := rfl
  have hpf : goParseFloat [49, 48, 46, 48] = .ok 10 := by
    norm_num [goParseFloat, goFloatVal, floatSign, fracPart, spanDigits, digitsVal,
      isDigit, expPart]
    rfl
  have hi := readNumber_representation (initState [49, 48, 125]) [49, 48] 125 []
    rfl (by decide) (by decide) (by decide)
  have hf := readNumber_representation (initState [49, 48, 46, 48, 125])
    [49, 48, 46, 48] 125 [] rfl (by decide) (by decide) (by decide)
  constructor
  · rcases hi.2 (by decide) with ⟨i, hok, _, hev⟩ | ⟨m, herr, _, _⟩
    · rw [hpi] at hok
      obtain rfl : (10 : Int) = i := Except.ok.inj hok
      exact hev
    · rw [hpi] at herr
      exact Except.noConfusion herr
  · rcases hf.1 (by decide) with ⟨q, hok, _, hev⟩ | ⟨m, herr, _, _⟩
    · rw [hpf] at hok
      obtain rfl : (10 : ℚ) = q := Except.ok.inj hok
      exact hev
    · rw [hpf] at herr
      exact Except.noConfusion herr

/-- C6 counterexample: the maximal numeric run "10" at the very end of
the stream is not emitted at all — the lexer fails with "unexpected end
of file" even though the run parses fine as a decimal integer. -/
theorem number_at_eof_not_emitted :
    (readNumber (initState [49, 48])).1 = false ∧
    (readNumber (initState [49, 48])).2.2 = [] ∧
    goParseInt [49, 48] = .ok 10 := by
  refine ⟨?_, ?_, rfl⟩ <;>
    simp [readNumber, numLoopF, readByte, initState, isFloatByte, isNumByte,
      isDigit, serr, unexpectedEOFMsg]

/-! ### The string escape decoder claims -/

/-- The literal byte produced by each simple escape letter. -/
def escLit (e : Byte) : Option Byte :=
  if e = 34 ∨ e = 92 ∨ e = 47 ∨ e = 39 then some e
  else if e = 98 then some 8
  else if e = 102 then some 12
  else if e = 110 then some 10
  else if e = 114 then some 13
  else if e = 116 then some 9
  else Option.none

/-- On input starting with a backslash the fast path stops immediately,
so the whole decoder is the slow path. -/
theorem decodeToUTF8_slash (tail : List Byte) :
    decodeToUTF8 (92 :: tail) = decSlow (92 :: tail) := by
  simp [decodeToUTF8, cleanLenF]

theorem decSlow_simple_esc {e lit : Byte} (he : escLit e = some lit)
    (rest : List Byte) :
    decSlow (92 :: e :: rest) = (decSlow rest).map (lit :: ·) := by
  unfold escLit at he
  split_ifs at he with g1 g2 g3 g4 g5 g6
  all_goals first
    | exact Option.noConfusion he
    | (obtain rfl := Option.some.inj he; simp_all [decSlow])

theorem decSlow_unicode {h1 h2 h3 h4 : Byte} {rest : List Byte} {rr : Int}
    (hg : getu4 (92 :: 117 :: h1 :: h2 :: h3 :: h4 :: rest) = rr) (h0 : 0 ≤ rr)
    (hs : utf16IsSurrogate rr = false) :
    decSlow (92 :: 117 :: h1 :: h2 :: h3 :: h4 :: rest) =
      (decSlow rest).map (utf8EncodeRune rr.toNat ++ ·) := by
  rw [decSlow]
  simp [hg, hs, not_lt.mpr h0]

theorem decSlow_surrogate_pair {h1 h2 h3 h4 : Byte} {rest : List Byte}
    {rr dec : Int}
    (hg : getu4 (92 :: 117 :: h1 :: h2 :: h3 :: h4 :: rest) = rr)
    (hs : utf16IsSurrogate rr = true)
    (hd : utf16DecodeRune rr (getu4 rest) = dec) (hdec : dec ≠ 0xFFFD) :
    decSlow (92 :: 117 :: h1 :: h2 :: h3 :: h4 :: rest) =
      (decSlow (rest.drop 6)).map (utf8EncodeRune dec.toNat ++ ·) := by
  have h0 : ¬ rr < 0 := by
    simp [utf16IsSurrogate] at hs
    omega
  rw [decSlow]
  simp [hg, hs, h0, hd, hdec]

theorem decSlow_lone_surrogate {h1 h2 h3 h4 : Byte} {rest : List Byte} {rr : Int}
    (hg : getu4 (92 :: 117 :: h1 :: h2 :: h3 :: h4 :: rest) = rr)
    (hs : utf16IsSurrogate rr = true)
    (hd : utf16DecodeRune rr (getu4 rest) = 0xFFFD) :
    decSlow (92 :: 117 :: h1 :: h2 :: h3 :: h4 :: rest) =
      (decSlow rest).map ([239, 191, 189] ++ ·) := by
  have h0 : ¬ rr < 0 := by
    simp [utf16IsSurrogate] at hs
    omega
  have henc : utf8EncodeRune 65533 = [239, 191, 189] := by decide
  rw [decSlow]
  simp [hg, hs, h0, hd, henc]

/-- C7: the escape decoder rewrites the nine simple escapes to their
literal byte and a backslash-u escape to the decoded code point,
reassembling a high surrogate followed by a valid low surrogate into one
code point and substituting the replacement character when a surrogate
is not followed by a valid low surrogate; in particular the document
with key "foo" and value made of the two escapes u265E and u2602
yields the single string value with UTF-8 bytes of the two decoded
characters. -/
theorem escape_decoder_spec :
    (∀ e lit rest, escLit e = some lit →
      decodeToUTF8 (92 :: e :: rest) = (decSlow rest).map (lit :: ·)) ∧
    (∀ h1 h2 h3 h4 rest (rr : Int),
      getu4 (92 :: 117 :: h1 :: h2 :: h3 :: h4 :: rest) = rr → 0 ≤ rr →
      utf16IsSurrogate rr = false →
      decodeToUTF8 (92 :: 117 :: h1 :: h2 :: h3 :: h4 :: rest) =
        (decSlow rest).map (utf8EncodeRune rr.toNat ++ ·)) ∧
    (∀ h1 h2 h3 h4 rest (rr dec : Int),
      getu4 (92 :: 117 :: h1 :: h2 :: h3 :: h4 :: rest) = rr →
      utf16IsSurrogate rr = true →
      utf16DecodeRune rr (getu4 rest) = dec → dec ≠ 0xFFFD →
      decodeToUTF8 (92 :: 117 :: h1 :: h2 :: h3 :: h4 :: rest) =
        (decSlow (rest.drop 6)).map (utf8EncodeRune dec.toNat ++ ·)) ∧
    (∀ h1 h2 h3 h4 rest (rr : Int),
      getu4 (92 :: 117 :: h1 :: h2 :: h3 :: h4 :: rest) = rr →
      utf16IsSurrogate rr = true →
      utf16DecodeRune rr (getu4 rest) = 0xFFFD →
      decodeToUTF8 (92 :: 117 :: h1 :: h2 :: h3 :: h4 :: rest) =
        (decSlow rest).map ([239, 191, 189] ++ ·)) ∧
    parseEvents 30 [123, 34, 102, 111, 111, 34, 58, 32, 34, 92, 117, 50, 54, 53,
        101, 92, 117, 50, 54, 48, 50, 34, 125] =
      [evObjStart, evObjKey, evStr [102, 111, 111], evObjValue,
        evStr [226, 153, 158, 226, 152, 130], evObjEnd] := by
  refine ⟨?_, ?_, ?_, ?_, ?_⟩
  · intro e lit rest he
    rw [decodeToUTF8_slash]
    exact decSlow_simple_esc he rest
  · intro h1 h2 h3 h4 rest rr hg h0 hs
    rw [decodeToUTF8_slash]
    exact decSlow_unicode hg h0 hs
  · intro h1 h2 h3 h4 rest rr dec hg hs hd hdec
    rw [decodeToUTF8_slash]
    exact decSlow_surrogate_pair hg hs hd hdec
  · intro h1 h2 h3 h4 rest rr hg hs hd
    rw [decodeToUTF8_slash]
    exact decSlow_lone_surrogate hg hs hd
  · simp [parseEvents, Parse, parseLoop, parseDoc, readObject, readObjectLoop,
      readValue, readString, strLoopF, decodeToUTF8, cleanLenF, decSlow,
      utf8DecodeRune, utf8EncodeRune, getu4, hexVal, utf16IsSurrogate,
      utf16DecodeRune, readIgnoreWS, igWSF, readByte, unreadByte, initState,
      parseAfter, getError, serr, isSpace, isDigit, evObjStart, evObjKey,
      evObjValue, evObjEnd, evStr, unexpectedEOFMsg]

/-- Witness for C7: a newline escape decodes to the newline byte, the
surrogate pair uD83D uDE00 decodes to the single code point U+1F600,
and a lone high surrogate uD83D decodes to the replacement character. -/
theorem escape_decoder_spec_witness :
    decodeToUTF8 [92, 110, 97] = some [10, 97] ∧
    decodeToUTF8 [92, 117, 100, 56, 51, 100, 92, 117, 100, 101, 48, 48] =
      some [240, 159, 152, 128] ∧
    decodeToUTF8 [92, 117, 100, 56, 51, 100] = some [239, 191, 189] := by
  obtain ⟨hesc, huni, hpair, hlone, _⟩ := escape_decoder_spec
  refine ⟨?_, ?_, ?_⟩
  · rw [hesc 110 10 [97] (by decide)]
    simp [decSlow]
  · rw [hpair 100 56 51 100 [92, 117, 100, 101, 48, 48] 0xD83D 0x1F600
      (by decide) (by decide) (by decide) (by decide)]
    simp [decSlow]
    decide
  · rw [hlone 100 56 51 100 [] 0xD83D (by decide) (by decide) (by decide)]
    simp [decSlow]

/-! ### Back-to-back documents in one stream -/

theorem isSpace_ne_zero {c : Byte} (h : isSpace c = true) : c ≠ 0 := by
  intro h0
  subst h0
  simp [isSpace] at h

theorem isSpace_ne_nl {b : Byte} (h : isSpace b = false) : b ≠ 10 := by
  intro h10
  subst h10
  simp [isSpace] at h

theorem igWSF_skip : ∀ (w : List Byte) (fuel : Nat) (s : PState) (b : Byte)
    (t : List Byte), s.fut = w ++ b :: t → (∀ c ∈ w, isSpace c = true) →
    isSpace b = false → s.fut.length < fuel →
    ∃ l p, igWSF fuel s =
      (b, ⟨b :: (w.reverse ++ s.past), t, l, p, false, s.err⟩) := by
  intro w
  induction w with
  | nil =>
    intro fuel s b t h hw hb hfl
    obtain ⟨m, rfl⟩ : ∃ m, fuel = m + 1 := ⟨fuel - 1, by omega⟩
    simp only [List.nil_append] at h
    obtain ⟨pa, f, l0, p0, u0, e0⟩ := s
    simp only [] at h
    subst h
    refine ⟨l0, p0 + 1, ?_⟩
    have hb10 : b ≠ 10 := isSpace_ne_nl hb
    simp [igWSF, readByte, hb, hb10]
  | cons c w' ih =>
    intro fuel s b t h hw hb hfl
    obtain ⟨m, rfl⟩ : ∃ m, fuel = m + 1 := ⟨fuel - 1, by omega⟩
    simp only [List.cons_append] at h
    have hc : isSpace c = true := hw c (List.mem_cons_self c w')
    have hc0 : c ≠ 0 := isSpace_ne_zero hc
    have hlen : (advState s c (w' ++ b :: t)).fut.length < m := by
      rw [advState_fut]
      rw [h] at hfl
      simpa using hfl
    obtain ⟨l, p, he⟩ := ih m (advState s c (w' ++ b :: t)) b t (advState_fut ..)
      (fun x hx => hw x (List.mem_cons_of_mem c hx)) hb hlen
    refine ⟨l, p, ?_⟩
    rw [show igWSF (m + 1) s = igWSF m (advState s c (w' ++ b :: t)) by
      simp [igWSF, readByte_eq_adv h, hc, hc0], he]
    have hpast : (advState s c (w' ++ b :: t)).past = c :: s.past := by
      by_cases h10 : c = 10 <;> simp [advState, h10]
    have herr : (advState s c (w' ++ b :: t)).err = s.err := advState_err ..
    rw [hpast, herr]
    simp

/-- A complete top-level document: from a fresh coordinate state, the
top-level dispatch consumes exactly the bytes of `d` (whatever follows
in the stream and whatever was consumed before), succeeds, emits `E`,
and leaves no recorded error.  `F` is a sufficient fuel bound. -/
def DocParses (d : List Byte) (E : List Event) (F : Nat) : Prop :=
  ∃ l p, ∀ fuel (q t : List Byte), F ≤ fuel →
    parseDoc fuel ⟨q, d ++ t, 1, 0, false, Option.none⟩ =
      (true, ⟨d.reverse ++ q, t, l, p, false, Option.none⟩, E)

theorem DocParses_head {d : List Byte} {E : List Event} {F : Nat}
    (h : DocParses d E F) : ∃ b d', d = b :: d' ∧ (b = 123 ∨ b = 91) := by
  obtain ⟨l, p, hall⟩ := h
  have h1 := hall F [] [] le_rfl
  cases d with
  | nil =>
    rw [show parseDoc F ⟨[], [] ++ [], 1, 0, false, Option.none⟩ =
        (false, serr unexpectedEOFMsg
          (⟨[], [], 1, 0, false, some .ioEOF⟩ : PState), []) by
      simp [parseDoc, readByte]] at h1
    exact Bool.noConfusion (congrArg Prod.fst h1)
  | cons b d' =>
    refine ⟨b, d', rfl, ?_⟩
    by_cases hb : b = 123
    · exact Or.inl hb
    by_cases hb' : b = 91
    · exact Or.inr hb'
    exfalso
    simp only [List.append_nil] at h1
    unfold parseDoc at h1
    rw [readByte_eq_adv (show (⟨[], b :: d', 1, 0, false,
      Option.none⟩ : PState).fut = b :: d' from rfl)] at h1
    by_cases hz : b = 0
    · subst hz
      simp at h1
    · simp [hz, hb, hb'] at h1

/-- C9: two complete top-level documents separated by whitespace parse
as the first document's full event sequence followed by the second's,
with no event for the separating whitespace and no recorded error. -/
theorem stream_of_two_documents (d1 d2 w : List Byte) (E1 E2 : List Event)
    (F1 F2 : Nat) (h1 : DocParses d1 E1 F1) (h2 : DocParses d2 E2 F2)
    (hw : ∀ c ∈ w, isSpace c = true) (fuel : Nat) (hfuel : F1 + F2 + 4 ≤ fuel) :
    (Parse fuel (initState (d1 ++ w ++ d2))).2 = E1 ++ E2 ∧
    getError (Parse fuel (initState (d1 ++ w ++ d2))).1 = Option.none := by
  obtain ⟨i, rfl⟩ : ∃ i, fuel = i + 4 := ⟨fuel - 4, by omega⟩
  obtain ⟨b, d2', rfl, hb⟩ := DocParses_head h2
  obtain ⟨l1, p1, H1⟩ := h1
  obtain ⟨l2, p2, H2⟩ := h2
  have hbs : isSpace b = false := by rcases hb with rfl | rfl <;> decide
  have hb0 : b ≠ 0 := by rcases hb with rfl | rfl <;> decide
  have hA := H1 (i + 3) [] (w ++ (b :: d2')) (by omega)
  simp only [List.append_nil] at hA
  obtain ⟨l3, p3, hB⟩ := igWSF_skip w
    ((⟨d1.reverse, w ++ (b :: d2'), l1, p1, false, Option.none⟩ : PState).fut.length + 1)
    ⟨d1.reverse, w ++ (b :: d2'), l1, p1, false, Option.none⟩ b d2' rfl hw hbs
    (Nat.lt_succ_self _)
  have hD := H2 (i + 1) (w.reverse ++ d1.reverse) [] (by omega)
  simp only [List.append_nil] at hD
  have hstep3 : parseLoop (i + 2)
      (⟨w.reverse ++ d1.reverse, b :: d2', 1, 0, false, Option.none⟩ : PState) =
      (⟨(b :: d2').reverse ++ (w.reverse ++ d1.reverse), [], l2, p2, false,
        some GoError.ioEOF⟩, E2) := by
    simp only [parseLoop, hD]
    simp [parseAfter, readIgnoreWS, igWSF, readByte]
  have hstep2 : parseAfter (i + 3)
      (⟨d1.reverse, w ++ (b :: d2'), l1, p1, false, Option.none⟩ : PState) =
      (⟨(b :: d2').reverse ++ (w.reverse ++ d1.reverse), [], l2, p2, false,
        some GoError.ioEOF⟩, E2) := by
    have : parseAfter (i + 3)
        (⟨d1.reverse, w ++ (b :: d2'), l1, p1, false, Option.none⟩ : PState) =
        parseLoop (i + 2)
          (resetState (unreadByte (⟨b :: (w.reverse ++ d1.reverse), d2', l3, p3,
            false, Option.none⟩ : PState))) := by
      simp only [parseAfter, readIgnoreWS, hB]
      rw [if_neg (by simpa using hb0)]
    rw [this]
    rw [show resetState (unreadByte (⟨b :: (w.reverse ++ d1.reverse), d2', l3, p3,
        false, Option.none⟩ : PState)) =
      (⟨w.reverse ++ d1.reverse, b :: d2', 1, 0, false, Option.none⟩ : PState) by
        simp [unreadByte, resetState]]
    exact hstep3
  have hLoop : parseLoop (i + 4) (initState (d1 ++ w ++ (b :: d2'))) =
      (⟨(b :: d2').reverse ++ (w.reverse ++ d1.reverse), [], l2, p2, false,
        some GoError.ioEOF⟩, E1 ++ E2) := by
    rw [show initState (d1 ++ w ++ (b :: d2')) =
      (⟨[], d1 ++ (w ++ (b :: d2')), 1, 0, false, Option.none⟩ : PState) by
        simp [initState, List.append_assoc]]
    simp only [parseLoop, hA, hstep2]
  unfold Parse
  rw [hLoop]
  simp [getError]

theorem docParses_empty_object : DocParses [123, 125] [evObjStart, evObjEnd] 1 := by
  refine ⟨1, 2, ?_⟩
  intro fuel q t hf
  obtain ⟨m, rfl⟩ : ∃ m, fuel = m + 1 := ⟨fuel - 1, by omega⟩
  simp [parseDoc, readByte, unreadByte, readObject, readIgnoreWS, igWSF, isSpace]

theorem docParses_empty_array : DocParses [91, 93] [evArrStart, evArrEnd] 1 := by
  refine ⟨1, 2, ?_⟩
  intro fuel q t hf
  obtain ⟨m, rfl⟩ : ∃ m, fuel = m + 1 := ⟨fuel - 1, by omega⟩
  simp [parseDoc, readByte, unreadByte, readArray, readIgnoreWS, igWSF, isSpace]

/-- Witness for C9: an empty object, two spaces, then an empty array
yield exactly the two standalone event sequences with no error. -/
theorem stream_of_two_documents_witness :
    (Parse 10 (initState ([123, 125] ++ [32, 32] ++ [91, 93]))).2 =
      [evObjStart, evObjEnd] ++ [evArrStart, evArrEnd] ∧
    getError (Parse 10 (initState ([123, 125] ++ [32, 32] ++ [91, 93]))).1 =
      Option.none :=
  stream_of_two_documents [123, 125] [91, 93] [32, 32]
    [evObjStart, evObjEnd] [evArrStart, evArrEnd] 1 1
    docParses_empty_object docParses_empty_array
    (by decide) 10 (by decide)

/-- Witness for the amended C1 at a concrete input. -/
theorem parse_terminal_eof_witness :
    ∃ body : List Event,
      (∀ e ∈ body, e.type ≠ .EOFEvent ∧ e.error = Option.none) ∧
      ((getError (parseLoop 30 (initState [123, 125])).1 = Option.none ∧
          parseEvents 30 [123, 125] = body) ∨
        (∃ m l p,
          getError (parseLoop 30 (initState [123, 125])).1 =
            some (.parseError m l p) ∧
          parseEvents 30 [123, 125] =
            body ++ [⟨.EOFEvent, .none, some (.parseError m l p)⟩])) :=
  parse_terminal_eof 30 [123, 125]

/-- Witness for C10 at a concrete event of a concrete parse. -/
theorem null_never_emitted_witness :
    evObjStart.type ≠ EventType.NullEvent :=
  null_never_emitted.1 30 [123, 125] evObjStart (by
    have h : parseEvents 30 [123, 125] = [evObjStart, evObjEnd] := by
      simp [parseEvents, Parse, parseLoop, parseDoc, readObject, readIgnoreWS,
        igWSF, readByte, unreadByte, initState, parseAfter, getError, serr,
        isSpace, evObjStart, evObjEnd]
    rw [h]
    simp)
